import Mathlib

/-!
Verification of the rule-validation pipeline of `langgraph_rms`
(`utils.safe_json_parse`, `validator.RuleValidator`, `prompts.PromptTemplate`).

Python strings are modelled as `List Char`; Python floats are modelled as
`Rat` (exact arithmetic; the only float operations in the pipeline are three
additions and one division, whose IEEE rounding error is far below the 1e-9
tolerance the specification allows). JSON values are modelled by `JValue`.
-/

set_option maxRecDepth 8000

namespace RMS

/-- Shorthand turning a Lean string literal into the `List Char` string model. -/
def cs (s : String) : List Char := s.toList

/-- Whitespace as recognised by Python `str.strip()` and the regex class `\s`
(ASCII part; the source also treats some rare Unicode spaces as whitespace,
which no claim exercises). -/
def pySpace (c : Char) : Bool :=
  c = ' ' || c = '\t' || c = '\n' || c = '\r' || c = '\x0b' || c = '\x0c'

/-- Python `str.strip()`: drop leading and trailing whitespace. -/
def pyStrip (s : List Char) : List Char :=
  ((s.dropWhile pySpace).reverse.dropWhile pySpace).reverse

/-- `begins pat s` holds when `pat` is a leading segment of `s`. -/
def begins : List Char → List Char → Bool
  | [], _ => true
  | _ :: _, [] => false
  | p :: ps, c :: rest => p = c && begins ps rest

/-- Index of the first occurrence of `pat` inside `s` (Python `str.find`,
also the scanning order of `re.search`). -/
def findSub (pat : List Char) : List Char → Option Nat
  | [] => if pat.isEmpty then some 0 else none
  | s@(_ :: rest) =>
    if begins pat s then some 0 else (findSub pat rest).map (· + 1)

/-- Python substring membership `pat in s`. -/
def hasSub (pat s : List Char) : Bool := (findSub pat s).isSome

/-! ### The two fence regexes of `safe_json_parse`

Source patterns (`re.search`, `re.DOTALL`):
  r1 = three backticks, `(?:json|JSON)`, `\s*\n`, lazy group, newline, three backticks
  r2 = three backticks, `\s*\n`, lazy group, newline, three backticks
`re.search` returns the leftmost starting position; at a fixed position the
greedy `\s*` is tried longest-first and the lazy group shortest-first. -/

/-- The closing delimiter `\n` followed by three backticks. -/
def fenceClose : List Char := ['\n', '`', '`', '`']

/-- The lazy group `(.*?)` before `\n` + three backticks: everything up to the
first occurrence of the closing delimiter. -/
def lazyGroup (t : List Char) : Option (List Char) :=
  (findSub fenceClose t).map (fun q => t.take q)

/-- Length of the leading whitespace run (the candidate lengths for `\s*`). -/
def wsLen (t : List Char) : Nat := (t.takeWhile pySpace).length

/-- Backtracking over the greedy `\s*` followed by `\n`: try to place the
mandatory newline at index `n`, `n-1`, ..., `0`, matching the lazy group on
the remainder. -/
def tryWsSplit (t : List Char) : Nat → Option (List Char)
  | 0 => if t.get? 0 = some '\n' then lazyGroup (t.drop 1) else none
  | n + 1 =>
    match (if t.get? (n + 1) = some '\n' then lazyGroup (t.drop (n + 2)) else none) with
    | some c => some c
    | none => tryWsSplit t n

/-- Opening of a json-tagged fence, lowercase variant. -/
def tagJson : List Char := cs "```json"

/-- Opening of a json-tagged fence, uppercase variant. -/
def tagJSON : List Char := cs "```JSON"

/-- Opening of a generic fence. -/
def tagGeneric : List Char := cs "```"

/-- Match of the json-tagged pattern anchored at the head of `s`.
The alternation accepts exactly the two spellings written in the source
regex: all-lowercase and all-uppercase. -/
def matchJsonAt (s : List Char) : Option (List Char) :=
  if begins tagJson s || begins tagJSON s then
    tryWsSplit (s.drop 7) (wsLen (s.drop 7))
  else none

/-- Match of the generic-fence pattern anchored at the head of `s`. -/
def matchGenericAt (s : List Char) : Option (List Char) :=
  if begins tagGeneric s then
    tryWsSplit (s.drop 3) (wsLen (s.drop 3))
  else none

/-- `re.search`: try the anchored match at every position, leftmost first. -/
def reSearch (matchAt : List Char → Option (List Char)) : List Char → Option (List Char)
  | [] => matchAt []
  | s@(_ :: rest) =>
    match matchAt s with
    | some c => some c
    | none => reSearch matchAt rest

/-- Search for a json-tagged fenced block (first regex of `safe_json_parse`). -/
def reSearchJson (s : List Char) : Option (List Char) := reSearch matchJsonAt s

/-- Search for a generic fenced block (second regex of `safe_json_parse`). -/
def reSearchGeneric (s : List Char) : Option (List Char) := reSearch matchGenericAt s

/-- Payload selection of `safe_json_parse` on the already-stripped content:
json-tagged fence first, then generic fence, else the whole content; an
extracted group is stripped (`match.group(1).strip()`). -/
def selectPayload (stripped : List Char) : List Char :=
  match reSearchJson stripped with
  | some g => pyStrip g
  | none =>
    match reSearchGeneric stripped with
    | some g => pyStrip g
    | none => stripped

/-! ### Exact number model

Python floats are modelled by exact fractions. `Rat` itself cannot be used
inside the executable pipeline because its normalisation is not
kernel-reducible in this toolchain, so the pipeline computes on raw
numerator/denominator pairs (`Q`, denominators kept positive by
construction) with cross-multiplication comparisons, and the theorems state
values through the interpretation `Q.toRat`. The pipeline arithmetic is
three additions, one division by 3, and order comparisons, all exact, so
this model agrees with IEEE doubles well within the 1e-9 tolerance the
specification allows. -/

structure Q where
  num : Int
  den : Nat
deriving DecidableEq

/-- Interpretation of a fraction as a rational number. -/
def Q.toRat (q : Q) : Rat := (q.num : Rat) / (q.den : Rat)

/-- Well-formedness: positive denominator (maintained by construction). -/
def Q.wf (q : Q) : Prop := 0 < q.den

/-- Embed a natural number. -/
def Q.ofNat (n : Nat) : Q := ⟨n, 1⟩

/-- Addition on fractions. -/
def qadd (a b : Q) : Q := ⟨a.num * b.den + b.num * a.den, a.den * b.den⟩

/-- Division of a fraction by a positive natural number. -/
def qdivN (a : Q) (k : Nat) : Q := ⟨a.num, a.den * k⟩

/-- Comparison `a <= b` by cross multiplication. -/
def qle (a b : Q) : Bool := decide (a.num * (b.den : Int) ≤ b.num * (a.den : Int))

/-- Comparison `a < b` by cross multiplication. -/
def qlt (a b : Q) : Bool := decide (a.num * (b.den : Int) < b.num * (a.den : Int))

/-! ### JSON values and `json.loads`

`JValue` models the values produced by the Python standard-library JSON
decoder: `null`, booleans, numbers (ints and floats, modelled exactly as
rationals), strings, arrays, and objects (ordered key/value lists; a later
duplicate key shadows an earlier one, as in a Python dict). The decoder
below follows the RFC 8259 grammar used by `json.loads` in strict mode; the
non-standard `NaN`/`Infinity` literals the Python decoder additionally
accepts are omitted (no claim exercises them, and a score of `NaN` or
`Infinity` fails the range check just like any out-of-range float). -/

inductive JValue where
  | jnull
  | jbool (b : Bool)
  | jnum (q : Q)
  | jstr (s : List Char)
  | jarr (elems : List JValue)
  | jobj (fields : List (List Char × JValue))

/-- Whitespace skipped by the JSON decoder (`json.decoder.WHITESPACE`). -/
def jsonWsChar (c : Char) : Bool := c = ' ' || c = '\t' || c = '\n' || c = '\r'

/-- Skip JSON whitespace. -/
def skipWs (s : List Char) : List Char := s.dropWhile jsonWsChar

/-- ASCII decimal digit test. -/
def isDigit (c : Char) : Bool := '0' ≤ c && c ≤ '9'

/-- Value of an ASCII decimal digit. -/
def digitVal (c : Char) : Nat := c.toNat - '0'.toNat

/-- Value of an ASCII hex digit, if any (codepoint ranges 0-9, a-f, A-F). -/
def hexVal (c : Char) : Option Nat :=
  let n := c.toNat
  if 48 ≤ n ∧ n ≤ 57 then some (n - 48)
  else if 97 ≤ n ∧ n ≤ 102 then some (n - 87)
  else if 65 ≤ n ∧ n ≤ 70 then some (n - 55)
  else none

/-- Numeric value of a digit string. -/
def natOfDigits (ds : List Char) : Nat := ds.foldl (fun a c => a * 10 + digitVal c) 0

/-- Exact value of a decimal literal: sign, mantissa digits, number of
fraction digits, decimal exponent. -/
def decToQ (neg : Bool) (mant : Nat) (fracLen : Nat) (expo : Int) : Q :=
  let n : Int := if neg then -(mant : Int) else (mant : Int)
  match expo with
  | .ofNat e => ⟨n * ((10 ^ e : Nat) : Int), 10 ^ fracLen⟩
  | .negSucc e => ⟨n, 10 ^ (fracLen + (e + 1))⟩

/-- JSON number: `-? (0 | [1-9][0-9]*) (\.[0-9]+)? ([eE][+-]?[0-9]+)?`.
Returns the exact value and the unconsumed remainder; a malformed
optional part is simply not consumed (the stray text then fails the caller,
exactly as the Python scanner behaves). -/
def parseNumber (s : List Char) : Option (Q × List Char) :=
  let (neg, s1) : Bool × List Char := match s with
    | '-' :: r => (true, r)
    | _ => (false, s)
  match s1 with
  | [] => none
  | c0 :: _ =>
    if ¬ isDigit c0 then none
    else
      let (ipart, s2) : List Char × List Char := match s1 with
        | '0' :: r => (['0'], r)
        | _ => s1.span isDigit
      let (fdigits, s3) : List Char × List Char := match s2 with
        | '.' :: r =>
          let (ds, r2) := r.span isDigit
          if ds.isEmpty then ([], s2) else (ds, r2)
        | _ => ([], s2)
      let (expo, s4) : Int × List Char := match s3 with
        | 'e' :: '+' :: r | 'E' :: '+' :: r =>
          let (ds, r2) := r.span isDigit
          if ds.isEmpty then (0, s3) else ((natOfDigits ds : Int), r2)
        | 'e' :: '-' :: r | 'E' :: '-' :: r =>
          let (ds, r2) := r.span isDigit
          if ds.isEmpty then (0, s3) else (-(natOfDigits ds : Int), r2)
        | 'e' :: r | 'E' :: r =>
          let (ds, r2) := r.span isDigit
          if ds.isEmpty then (0, s3) else ((natOfDigits ds : Int), r2)
        | _ => (0, s3)
      some (decToQ neg (natOfDigits (ipart ++ fdigits)) fdigits.length expo, s4)

/-- JSON string body after the opening quote, in strict mode: escape
sequences are decoded, raw control characters are rejected. A `\u` escape is
decoded through `Char.ofNat`; surrogate-pair recombination is not modelled
(no claim exercises it). -/
def parseJStr : Nat → List Char → Option (List Char × List Char)
  | 0, _ => none
  | fuel + 1, s =>
    match s with
    | [] => none
    | '"' :: rest => some ([], rest)
    | '\\' :: e :: rest =>
      let cont (c : Char) (r : List Char) : Option (List Char × List Char) :=
        (parseJStr fuel r).map (fun p => (c :: p.1, p.2))
      match e, rest with
      | '"', r => cont '"' r
      | '\\', r => cont '\\' r
      | '/', r => cont '/' r
      | 'b', r => cont '\x08' r
      | 'f', r => cont '\x0c' r
      | 'n', r => cont '\n' r
      | 'r', r => cont '\r' r
      | 't', r => cont '\t' r
      | 'u', h1 :: h2 :: h3 :: h4 :: r =>
        (match hexVal h1, hexVal h2, hexVal h3, hexVal h4 with
         | some a, some b, some c, some d =>
           cont (Char.ofNat (((a * 16 + b) * 16 + c) * 16 + d)) r
         | _, _, _, _ => none)
      | _, _ => none
    | c :: rest => if 0x20 ≤ c.toNat then (parseJStr fuel rest).map (fun p => (c :: p.1, p.2)) else none

mutual

/-- One JSON value at the head of the input (whitespace already skipped). -/
def parseVal : Nat → List Char → Option (JValue × List Char)
  | 0, _ => none
  | fuel + 1, s =>
    match s with
    | [] => none
    | '"' :: rest => (parseJStr (fuel + 1) rest).map (fun p => (JValue.jstr p.1, p.2))
    | '{' :: rest =>
      (match skipWs rest with
       | '}' :: r => some (JValue.jobj [], r)
       | s1 => (parseMembers fuel s1).map (fun p => (JValue.jobj p.1, p.2)))
    | '[' :: rest =>
      (match skipWs rest with
       | ']' :: r => some (JValue.jarr [], r)
       | s1 => (parseElems fuel s1).map (fun p => (JValue.jarr p.1, p.2)))
    | s1 =>
      if begins (cs "true") s1 then some (JValue.jbool true, s1.drop 4)
      else if begins (cs "false") s1 then some (JValue.jbool false, s1.drop 5)
      else if begins (cs "null") s1 then some (JValue.jnull, s1.drop 4)
      else (parseNumber s1).map (fun p => (JValue.jnum p.1, p.2))

/-- Object members, positioned at a key. -/
def parseMembers : Nat → List Char → Option (List (List Char × JValue) × List Char)
  | 0, _ => none
  | fuel + 1, s =>
    match s with
    | '"' :: rest =>
      (match parseJStr (fuel + 1) rest with
       | none => none
       | some (k, r1) =>
         match skipWs r1 with
         | ':' :: r3 =>
           (match parseVal fuel (skipWs r3) with
            | none => none
            | some (v, r4) =>
              match skipWs r4 with
              | ',' :: r6 => (parseMembers fuel (skipWs r6)).map (fun p => ((k, v) :: p.1, p.2))
              | '}' :: r6 => some ([(k, v)], r6)
              | _ => none)
         | _ => none)
    | _ => none

/-- Array elements, positioned at a value. -/
def parseElems : Nat → List Char → Option (List JValue × List Char)
  | 0, _ => none
  | fuel + 1, s =>
    match parseVal fuel s with
    | none => none
    | some (v, r1) =>
      match skipWs r1 with
      | ',' :: r2 => (parseElems fuel (skipWs r2)).map (fun p => (v :: p.1, p.2))
      | ']' :: r2 => some ([v], r2)
      | _ => none

end

/-- `json.loads`: one JSON document, with trailing data rejected. The fuel
`2 * length + 2` dominates the recursion depth (every two nested calls
consume at least one input character). -/
def jsonLoads (s : List Char) : Option JValue :=
  match parseVal (2 * s.length + 2) (skipWs s) with
  | some (v, rest) => if (skipWs rest).isEmpty then some v else none
  | none => none

/-! ### Error taxonomy and `safe_json_parse` -/

/-- The failure kinds of the pipeline. `malformedPayload` carries the
`json_str[:200]` snippet interpolated into the message; `validationError`
models a pydantic model-construction failure; `typeError` and `keyError`
model the corresponding Python exceptions on shapes the defensive checks do
not reach; `clientError` stands for an arbitrary failure of the injected
model client. -/
inductive PyExc where
  | emptyInput
  | malformedPayload (snippet : List Char)
  | unexpectedShape
  | missingField (field : List Char)
  | invalidScore (field : List Char)
  | keyError (key : List Char)
  | typeError (note : String)
  | validationError (note : String)
  | clientError (note : String)
deriving DecidableEq

/-- `utils.safe_json_parse`: reject blank input, select the payload (fenced
json block, then generic fenced block, then the whole stripped text), decode
it, and insist on a JSON object. The not-a-dict `ValueError` is raised
inside the `try` but is not a `JSONDecodeError`, so it propagates as the
shape error rather than being rewrapped. -/
def safe_json_parse (content : List Char) : Except PyExc JValue :=
  if (pyStrip content).isEmpty then .error .emptyInput
  else
    let payload := selectPayload (pyStrip content)
    match jsonLoads payload with
    | some (.jobj fs) => .ok (.jobj fs)
    | some _ => .error .unexpectedShape
    | none => .error (.malformedPayload (payload.take 200))

/-! ### Prompt assembly (`prompts.py`)

`PromptTemplate.render` builds the agents section and the existing-rules
section and substitutes them into the template with Python `str.format`.
The format engine below supports what `str.format` does on this template:
`{name}` keyword substitution and the brace escapes (doubled braces); format
specs and conversions are not used by any template in the source. -/

/-- States of the `str.format` scanner. -/
inductive FmtState where
  | text
  | afterOpen
  | afterClose
  | inName (acc : List Char)

/-- Keyword-argument lookup for `str.format`. -/
def lookupSub (subs : List (List Char × List Char)) (name : List Char) : Option (List Char) :=
  (subs.find? (fun kv => decide (kv.1 = name))).map (fun kv => kv.2)

/-- Python `str.format` restricted to keyword fields and brace escapes.
`none` models the `KeyError`/`ValueError` raised on an unknown field or a
stray single brace. -/
def pyFormatGo (subs : List (List Char × List Char)) : FmtState → List Char → Option (List Char)
  | .text, [] => some []
  | .text, c :: rest =>
    if c = '{' then pyFormatGo subs .afterOpen rest
    else if c = '}' then pyFormatGo subs .afterClose rest
    else (pyFormatGo subs .text rest).map (fun out => c :: out)
  | .afterOpen, [] => none
  | .afterOpen, c :: rest =>
    if c = '{' then (pyFormatGo subs .text rest).map (fun out => '{' :: out)
    else if c = '}' then none
    else pyFormatGo subs (.inName [c]) rest
  | .afterClose, [] => none
  | .afterClose, c :: rest =>
    if c = '}' then (pyFormatGo subs .text rest).map (fun out => '}' :: out) else none
  | .inName _, [] => none
  | .inName acc, c :: rest =>
    if c = '}' then
      match lookupSub subs acc.reverse with
      | some v => (pyFormatGo subs .text rest).map (fun out => v ++ out)
      | none => none
    else pyFormatGo subs (.inName (c :: acc)) rest

/-- `str.format` with keyword arguments. -/
def pyFormat (subs : List (List Char × List Char)) (tpl : List Char) : Option (List Char) :=
  pyFormatGo subs .text tpl

/-- The agents section: one numbered block per agent, starting at 1, in the
order the caller supplied (`enumerate(agent_prompts.items(), 1)`). -/
def agentsSectionFrom : Nat → List (List Char × List Char) → List Char
  | _, [] => []
  | i, (name, p) :: rest =>
    cs "\n### Agent " ++ (toString i).toList ++ cs ": " ++ name
      ++ cs "\n```" ++ p ++ cs "```\n" ++ agentsSectionFrom (i + 1) rest

/-- The agents section of `PromptTemplate.render`. -/
def agentsSection (prompts : List (List Char × List Char)) : List Char :=
  agentsSectionFrom 1 prompts

/-- The dict handed to `render` for one existing rule, as assembled by
`RuleValidator._build_validation_prompt`: optional `id` and `rule_text`
(render falls back to `"unknown"` / `""` when absent), and the applied
agent names when a truthy `validation_metadata` entry is present. -/
structure ExistingRuleData where
  id : Option (List Char)
  rule_text : Option (List Char)
  applied_agent_names : Option (List (List Char))

/-- Python `", ".join`. -/
def joinComma : List (List Char) → List Char
  | [] => []
  | [x] => x
  | x :: y :: rest => x ++ cs ", " ++ joinComma (y :: rest)

/-- One entry of the existing-rules section. -/
def ruleEntryText (r : ExistingRuleData) : List Char :=
  cs "- Rule ID: " ++ r.id.getD (cs "unknown") ++ cs "\n"
    ++ (match r.applied_agent_names with
        | some names => cs "  Applied to: " ++ joinComma names ++ cs "\n"
        | none => [])
    ++ cs "  Text: " ++ r.rule_text.getD [] ++ cs "\n\n"

/-- Header of the existing-rules section. -/
def existingRulesHeader : List Char := cs "\n**EXISTING ACTIVE RULES:**\n"

/-- The existing-rules section: empty when the list is absent or empty
(`if existing_rules:`), otherwise the header followed by one entry per
rule. -/
def existingRulesSection : Option (List ExistingRuleData) → List Char
  | none => []
  | some [] => []
  | some (r :: rs) => existingRulesHeader ++ ((r :: rs).map ruleEntryText).flatten

def tplT0 : List Char :=
  cs "You are a rule compatibility validator for a LangGraph-based multi-agent system. Evaluate whether a new rule is compatible with the system\x27s agents and determine which agents it should be applied to.\n\n**SYSTEM ARCHITECTURE:**\nWe have a multi-agent medical chatbot system using LangGraph. Each a"
  ++ cs "gent has a specific role and responsibilities. When applying rules, we need to ensure they are compatible with the intended agents\x27 purposes.\n\n**AGENTS IN THE SYSTEM:**\n"

def tplT1 : List Char :=
  cs "\n"

def tplT2 : List Char :=
  cs "\n**NEW RULE TO VALIDATE:**\n```\n"

def tplT3 : List Char :=
  cs "\n```\n\n**VALIDATION CRITERIA FOR EACH AGENT:**\n\n1. **Role Consistency**: Does the rule align with the agent\x27s core role and purpose?\n   - Score: 0.0 (completely inconsistent) to 1.0 (fully consistent)\n\n2. **Authority Expansion**: Does the rule attempt to expand the agent\x27s authority bey"
  ++ cs "ond its intended scope?\n   - Score: 0.0 (major expansion) to 1.0 (no expansion)\n\n3. **Instruction Conflicts**: Does the rule conflict with any explicit instructions in the agent prompt OR with existing active rules for that agent?\n   - Score: 0.0 (major conflicts) to 1.0 (no conflicts)\n   - IMP"
  ++ cs "ORTANT: Check for conflicts with both the agent\x27s base prompt AND any existing active rules that apply to this agent\n\n**SCORING GUIDELINES:**\n- 0.9-1.0: Excellent compatibility, minor or no concerns\n- 0.7-0.9: Good compatibility, some concerns but acceptable\n- 0.5-0.7: Moderate compatibility"
  ++ cs ", significant concerns\n- 0.3-0.5: Poor compatibility, major concerns\n- 0.0-0.3: Incompatible, should not be applied\n\n**RULE TRANSFORMATION REQUIREMENT:**\nFor each agent that meets the compatibility threshold (>= 0.7), you MUST:\n1. Translate the rule to English (if not already in English)\n2. R"
  ++ cs "efine it to be clear, concise, and ready to insert into an agent\x27s system prompt\n3. Format it as a direct instruction that can be appended to the agent\x27s prompt\n4. Preserve the original meaning and intent of the rule\n5. Ensure it does not contradict existing rules for that agent\n\n**OUTPUT"
  ++ cs " FORMAT (JSON only):**\n```json\n\x7b\x7b\n  \"applied_agents\": [\n    \x7b\x7b\n      \"agent_name\": \"<exact agent name from the list above>\",\n      \"role_consistency_score\": <float 0.0-1.0>,\n      \"authority_expansion_score\": <float 0.0-1.0>,\n      \"instruction_conflicts_score\": <floa"
  ++ cs "t 0.0-1.0>,\n      \"overall_compatibility_score\": <float 0.0-1.0, average of three scores>,\n      \"analysis\": \"<brief explanation of why this agent is/isn\x27t suitable>\",\n      \"concerns\": [\"<list specific concerns if any, including conflicts with existing rules>\"],\n      \"rule_to_app"
  ++ cs "ly\": \"<English version of the rule, formatted as a clear instruction ready to add to the agent\x27s prompt>\"\n    \x7d\x7d\n  ],\n  \"system_summary\": \"<arabic 50-75 words brief overall summary of the rule\x27s compatibility with the system, without mentioning scores, with mention of which agen"
  ++ cs "ts the rule can be applied to and which are not suitable>\",\n  \"system_summary_en\": \"<english version of system_summary above>\"\n\x7d\x7d\n```\n\n**IMPORTANT:**\n- Only include agents in `applied_agents` that have `overall_compatibility_score >= 0.7`\n- If no agents meet the threshold, return a"
  ++ cs "n empty array for `applied_agents`\n- Use the exact agent names from the list above\n- `rule_to_apply` MUST be in English and formatted as a direct instruction\n- `rule_to_apply` should be concise (1-3 sentences) and actionable\n- CRITICAL: Check for conflicts with existing active rules when evaluat"
  ++ cs "ing instruction_conflicts_score\n\nReturn ONLY valid JSON. No additional text."

/-- `DEFAULT_VALIDATION_TEMPLATE`, written as the concatenation of its four
literal chunks around the three insertion points (the chunk constants above
transcribe the source literal verbatim). -/
def defaultTemplate : List Char :=
  tplT0 ++ cs "{agents_section}" ++ tplT1 ++ cs "{existing_rules_section}"
    ++ tplT2 ++ cs "{rule_text}" ++ tplT3

/-- `PromptTemplate.render`. -/
def render (tpl rule_text : List Char) (prompts : List (List Char × List Char))
    (rules : Option (List ExistingRuleData)) : Option (List Char) :=
  pyFormat
    [(cs "rule_text", rule_text),
     (cs "agents_section", agentsSection prompts),
     (cs "existing_rules_section", existingRulesSection rules)]
    tpl

/-! ### Data model (`models.py`)

The pydantic models, with their construction-time validation made
explicit: a required field that is absent, a field of the wrong type, or a
score outside `[0, 1]` makes construction fail with a `ValidationError`
(pydantic 2, per `setup.py`; pydantic 2 does not coerce booleans or other
non-numbers to `float`, nor non-strings to `str`). -/

structure AgentRuleInfo where
  agent_name : List Char
  role_consistency_score : Q
  authority_expansion_score : Q
  instruction_conflicts_score : Q
  overall_compatibility_score : Q
  analysis : List Char
  concerns : List (List Char)
  rule_to_apply : List Char
deriving DecidableEq

structure ValidationMetadata where
  applied_agents : List AgentRuleInfo
deriving DecidableEq

structure RuleValidation where
  can_be_applied : Bool
  max_compatibility_score : Q
  explanation : List Char
  explanation_en : List Char
  validation_metadata : ValidationMetadata
deriving DecidableEq

/-- Last-wins key lookup in a JSON object (Python dict indexing). -/
def jLookup (fields : List (List Char × JValue)) (key : List Char) : Option JValue :=
  (fields.reverse.find? (fun kv => decide (kv.1 = key))).map (fun kv => kv.2)

/-- `dict.get(key, default)`. -/
def jLookupD (fields : List (List Char × JValue)) (key : List Char) (dflt : JValue) : JValue :=
  (jLookup fields key).getD dflt

/-- Fields of an object value (the callers only reach this on objects). -/
def objFields : JValue → List (List Char × JValue)
  | .jobj fs => fs
  | _ => []

/-- pydantic required `str` field. -/
def pyStrReq (v : Option JValue) : Except PyExc (List Char) :=
  match v with
  | some (.jstr s) => .ok s
  | some _ => .error (.validationError "Input should be a valid string")
  | none => .error (.validationError "Field required")

/-- pydantic required `float` field with `ge=0.0, le=1.0`. -/
def pyScoreField (v : Option JValue) : Except PyExc Q :=
  match v with
  | some (.jnum q) =>
    if qle (Q.ofNat 0) q && qle q (Q.ofNat 1) then .ok q
    else .error (.validationError "Input should be within the bounds")
  | some _ => .error (.validationError "Input should be a valid number")
  | none => .error (.validationError "Field required")

/-- pydantic `List[str]` field. -/
def pyStrList (v : JValue) : Except PyExc (List (List Char)) :=
  match v with
  | .jarr xs =>
    xs.mapM (fun e =>
      match e with
      | .jstr s => Except.ok s
      | _ => Except.error (.validationError "Input should be a valid string"))
  | _ => .error (.validationError "Input should be a valid list")

/-! ### Response validation (`RuleValidator._parse_validation_response`) -/

/-- The five required per-entry fields, in the order they are checked. -/
def requiredFields : List (List Char) :=
  [cs "agent_name", cs "role_consistency_score", cs "authority_expansion_score",
   cs "instruction_conflicts_score", cs "rule_to_apply"]

/-- The three sub-score fields, in the order they are checked. -/
def scoreFields : List (List Char) :=
  [cs "role_consistency_score", cs "authority_expansion_score",
   cs "instruction_conflicts_score"]

/-- `isinstance(score, (int, float))`: JSON numbers, and also Python
booleans, because `bool` is a subclass of `int`. -/
def isPyNumber : JValue → Bool
  | .jnum _ => true
  | .jbool _ => true
  | _ => false

/-- Numeric value of a score that passed `isPyNumber`: booleans count as
1 and 0, as they do in Python arithmetic and comparisons. (The fallback 0
for other shapes is unreachable behind the `isPyNumber` guards.) -/
def pyNumVal : JValue → Q
  | .jnum q => q
  | .jbool b => Q.ofNat (if b then 1 else 0)
  | _ => Q.ofNat 0

/-- The score-range test of `_parse_validation_response`:
`isinstance(score, (int, float)) and 0.0 <= score <= 1.0`. -/
def scoreOk (v : JValue) : Bool :=
  isPyNumber v && qle (Q.ofNat 0) (pyNumVal v) && qle (pyNumVal v) (Q.ofNat 1)

/-- The per-entry checks: each required field must be present (`field not in
agent` raises the first missing one) and each sub-score must pass `scoreOk`.
A string entry arises when the `applied_agents` value is a dict or a string
(Python then iterates keys or characters): `in` is substring containment
there, and indexing a string by a field name raises `TypeError`. A list
entry makes `in` a membership test and indexing raises `TypeError`. Other
shapes raise `TypeError` at the first `in`. -/
def checkEntry (agent : JValue) : Except PyExc Unit :=
  match agent with
  | .jobj fs =>
    (match requiredFields.find? (fun f => (jLookup fs f).isNone) with
     | some f => .error (.missingField f)
     | none =>
       match scoreFields.find? (fun f => ! scoreOk (jLookupD fs f .jnull)) with
       | some f => .error (.invalidScore f)
       | none => .ok ())
  | .jstr k =>
    (match requiredFields.find? (fun f => ! hasSub f k) with
     | some f => .error (.missingField f)
     | none => .error (.typeError "string indices must be integers"))
  | .jarr elems =>
    (match requiredFields.find? (fun f =>
        ! elems.any (fun e => match e with | .jstr s => decide (s = f) | _ => false)) with
     | some f => .error (.missingField f)
     | none => .error (.typeError "list indices must be strings"))
  | _ => .error (.typeError "argument is not iterable")

/-- Sequential check of all entries; the first failure aborts. -/
def checkEntries : List JValue → Except PyExc Unit
  | [] => .ok ()
  | a :: rest => do
    checkEntry a
    checkEntries rest

/-- Python iteration over the `applied_agents` value: lists yield their
elements, dicts their keys, strings their characters; other values raise
`TypeError`. -/
def entriesOf : JValue → Except PyExc (List JValue)
  | .jarr xs => .ok xs
  | .jobj fs => .ok (fs.map (fun kv => .jstr kv.1))
  | .jstr s => .ok (s.map (fun c => .jstr [c]))
  | _ => .error (.typeError "argument is not iterable")

/-- The shape checks run on a parsed response: the `applied_agents` key must
exist, and every entry must pass `checkEntry`; the parsed value is returned
unchanged. -/
def validateParsed (parsed : JValue) : Except PyExc JValue :=
  match jLookup (objFields parsed) (cs "applied_agents") with
  | none => .error (.missingField (cs "applied_agents"))
  | some aa => do
    let entries ← entriesOf aa
    checkEntries entries
    pure parsed

/-- `RuleValidator._parse_validation_response`. -/
def parseValidationResponse (response : List Char) : Except PyExc JValue := do
  let parsed ← safe_json_parse response
  validateParsed parsed

/-! ### The orchestrator (`RuleValidator.validate_rule`) -/

/-- Dict indexing `agent[key]` (`KeyError` when absent). -/
def getItem (fs : List (List Char × JValue)) (key : List Char) : Except PyExc JValue :=
  match jLookup fs key with
  | some v => .ok v
  | none => .error (.keyError key)

/-- pydantic construction of `AgentRuleInfo`, given the raw entry fields and
the already-computed overall score. -/
def mkAgentRuleInfo (fs : List (List Char × JValue)) (overall : Q) :
    Except PyExc AgentRuleInfo := do
  let name ← pyStrReq (jLookup fs (cs "agent_name"))
  let s1 ← pyScoreField (jLookup fs (cs "role_consistency_score"))
  let s2 ← pyScoreField (jLookup fs (cs "authority_expansion_score"))
  let s3 ← pyScoreField (jLookup fs (cs "instruction_conflicts_score"))
  let overallChecked ←
    (if qle (Q.ofNat 0) overall && qle overall (Q.ofNat 1) then Except.ok overall
     else Except.error (.validationError "Input should be within the bounds"))
  let analysis ←
    (match jLookup fs (cs "analysis") with
     | none => Except.ok (cs "")
     | some v => pyStrReq (some v))
  let concerns ← pyStrList (jLookupD fs (cs "concerns") (.jarr []))
  let rta ← pyStrReq (jLookup fs (cs "rule_to_apply"))
  pure ⟨name, s1, s2, s3, overallChecked, analysis, concerns, rta⟩

/-- The literal `3.0` dividing the score sum. -/
def three : Nat := 3

/-- The overall score computed in the loop of `validate_rule`: the mean of
the three sub-scores read back from the raw entry. -/
def overallOf (fs : List (List Char × JValue)) : Q :=
  qdivN
    (qadd
      (qadd (pyNumVal (jLookupD fs (cs "role_consistency_score") .jnull))
            (pyNumVal (jLookupD fs (cs "authority_expansion_score") .jnull)))
      (pyNumVal (jLookupD fs (cs "instruction_conflicts_score") .jnull)))
    three

/-- One iteration of the loop of `validate_rule`: read the three sub-scores
(`KeyError` if absent — unreachable after the checks), compute the mean,
and when it meets the threshold construct the `AgentRuleInfo`. -/
def buildOne (threshold : Q) (agent : JValue) : Except PyExc (Option AgentRuleInfo) :=
  match agent with
  | .jobj fs => do
    let _ ← getItem fs (cs "role_consistency_score")
    let _ ← getItem fs (cs "authority_expansion_score")
    let _ ← getItem fs (cs "instruction_conflicts_score")
    let overall := overallOf fs
    if qle threshold overall then do
      let info ← mkAgentRuleInfo fs overall
      pure (some info)
    else
      pure none
  | _ => .error (.typeError "entry indexing failed")

/-- The full filtering loop of `validate_rule`. -/
def buildApplied (threshold : Q) : List JValue → Except PyExc (List AgentRuleInfo)
  | [] => .ok []
  | e :: rest => do
    let info? ← buildOne threshold e
    let tail ← buildApplied threshold rest
    pure (match info? with | some i => i :: tail | none => tail)

/-- `max(agent.overall_compatibility_score for agent in applied_agents)`
with the `0.0` fallback for the empty list; Python `max` keeps the first of
equal elements, so later elements replace only on strict increase. -/
def maxOverall : List AgentRuleInfo → Q
  | [] => Q.ofNat 0
  | x :: xs =>
    xs.foldl
      (fun acc a =>
        if qlt acc a.overall_compatibility_score then a.overall_compatibility_score else acc)
      x.overall_compatibility_score

/-- pydantic construction of `RuleValidation`. `explanation_en` is a
required field of the model: passing `none` (the field omitted, as the
error handler of `validate_rule` does) fails with a `ValidationError`;
`max_compatibility_score` carries `ge=0.0, le=1.0`. -/
def mkRuleValidation (can : Bool) (maxScore : Q) (expl explEn : Option (List Char))
    (md : ValidationMetadata) : Except PyExc RuleValidation :=
  match expl, explEn with
  | some e1, some e2 =>
    if qle (Q.ofNat 0) maxScore && qle maxScore (Q.ofNat 1) then
      .ok ⟨can, maxScore, e1, e2, md⟩
    else .error (.validationError "Input should be within the bounds")
  | _, _ => .error (.validationError "Field required")

/-- `parsed_data.get(key, default_text)` feeding a pydantic `str` field:
the default is used when the key is absent; a present non-string value
fails the model construction. -/
def pyStrGetD (fields : List (List Char × JValue)) (key : List Char) (dflt : List Char) :
    Except PyExc (List Char) :=
  match jLookup fields key with
  | none => .ok dflt
  | some v => pyStrReq (some v)

/-- A cached rule as consumed by `_build_validation_prompt`: its id, text,
and — when it carries a validation — the names of the agents of that
validation. -/
structure CachedRuleCtx where
  id : List Char
  rule_text : List Char
  latest_validation_agents : Option (List (List Char))

/-- The dict list `_build_validation_prompt` hands to `render`: `None` when
the input list is absent or empty (`if existing_rules:`), else one dict per
rule, with the `validation_metadata` key only for rules carrying a
validation. -/
def existingRulesData : Option (List CachedRuleCtx) → Option (List ExistingRuleData)
  | none => none
  | some [] => none
  | some (r :: rs) =>
    some ((r :: rs).map (fun c => ⟨some c.id, some c.rule_text, c.latest_validation_agents⟩))

/-- `RuleValidator._build_validation_prompt` with the default template. -/
def buildValidationPrompt (rule_text : List Char) (prompts : List (List Char × List Char))
    (rules : Option (List CachedRuleCtx)) : Except PyExc (List Char) :=
  match render defaultTemplate rule_text prompts (existingRulesData rules) with
  | some s => .ok s
  | none => .error (.keyError (cs "format"))

/-- Fallback Arabic summary (`"تم التحقق من القاعدة"`). -/
def dfltSummary : List Char := cs "تم التحقق من القاعدة"

/-- Fallback English summary. -/
def dfltSummaryEn : List Char := cs "Rule validation completed"

/-- The part of the `try` block of `validate_rule` downstream of the model
call: parse and check the response, filter and score, apply the optional
scoring callback, and construct the outcome. The scoring callback is an
arbitrary function on the scored list that may itself fail. -/
def pipelineAfter (threshold : Q) (contentRes : Except PyExc (List Char))
    (cb : Option (List AgentRuleInfo → Except PyExc (List AgentRuleInfo))) :
    Except PyExc RuleValidation := do
  let content ← contentRes
  let parsed ← parseValidationResponse content
  let entries ← entriesOf (jLookupD (objFields parsed) (cs "applied_agents") (.jarr []))
  let applied ← buildApplied threshold entries
  let applied ← (match cb with
    | none => Except.ok applied
    | some f => f applied)
  let expl ← pyStrGetD (objFields parsed) (cs "system_summary") dfltSummary
  let explEn ← pyStrGetD (objFields parsed) (cs "system_summary_en") dfltSummaryEn
  mkRuleValidation (! applied.isEmpty) (maxOverall applied) (some expl) (some explEn)
    ⟨applied⟩

/-- The body of the `try` block of `validate_rule`: build the prompt, call
the model client (an arbitrary function from the rendered prompt to a
response or a failure), then run the downstream pipeline. -/
def validateRuleBody (threshold : Q) (rule_text : List Char)
    (prompts : List (List Char × List Char)) (rules : Option (List CachedRuleCtx))
    (llm : List Char → Except PyExc (List Char))
    (cb : Option (List AgentRuleInfo → Except PyExc (List AgentRuleInfo))) :
    Except PyExc RuleValidation :=
  pipelineAfter threshold ((buildValidationPrompt rule_text prompts rules).bind llm) cb

/-- Message of the safe-default explanation, `f"Validation failed: {e}"`
(the rendering of the exception text is abstracted to a constructor tag;
the value is discarded because the construction below it fails). -/
def excText : PyExc → List Char
  | .emptyInput => cs "Content is empty or contains only whitespace"
  | .malformedPayload p => cs "Failed to parse JSON. Content: " ++ p
  | .unexpectedShape => cs "Expected JSON object (dict)"
  | .missingField f => cs "missing required field: " ++ f
  | .invalidScore f => f ++ cs " must be a number between 0.0 and 1.0"
  | .keyError k => k
  | .typeError m => cs m
  | .validationError m => cs m
  | .clientError m => cs m

/-- The `except` handler of `validate_rule`: it constructs the safe-default
`RuleValidation` — but omits the required `explanation_en` field, so the
construction itself raises a pydantic `ValidationError`. -/
def safeDefault (e : PyExc) : Except PyExc RuleValidation :=
  mkRuleValidation false (Q.ofNat 0)
    (some (cs "Validation failed: " ++ excText e)) none ⟨[]⟩

/-- `RuleValidator.validate_rule`: the `try` body, with every failure
routed through the `except` handler. -/
def validate_rule (threshold : Q) (rule_text : List Char)
    (prompts : List (List Char × List Char)) (rules : Option (List CachedRuleCtx))
    (llm : List Char → Except PyExc (List Char))
    (cb : Option (List AgentRuleInfo → Except PyExc (List AgentRuleInfo))) :
    Except PyExc RuleValidation :=
  match validateRuleBody threshold rule_text prompts rules llm cb with
  | .ok v => .ok v
  | .error e => safeDefault e

/-! ### Auxiliary shape definitions used by the theorems -/

/-- A string without brace characters (substituted verbatim by
`str.format`). -/
def noBrace (s : List Char) : Bool := s.all (fun c => ! (c = '{' || c = '}'))

/-- A string whose braces occur only as doubled escapes. -/
def escOnly : List Char → Bool
  | [] => true
  | c :: r =>
    if c = '{' ∨ c = '}' then
      match r with
      | c2 :: r2 => if c2 = c then escOnly r2 else false
      | [] => false
    else escOnly r

/-- Collapse doubled braces (the output `str.format` produces on a chunk
whose braces are all escapes; the value on other strings is irrelevant). -/
def collapse : List Char → List Char
  | [] => []
  | c :: r =>
    if c = '{' ∨ c = '}' then
      match r with
      | c2 :: r2 => if c2 = c then c :: collapse r2 else []
      | [] => []
    else c :: collapse r

/-- The rendered default prompt: the four template chunks around the three
substituted sections. -/
def renderedDefault (rule_text : List Char) (prompts : List (List Char × List Char))
    (rules : Option (List ExistingRuleData)) : List Char :=
  tplT0 ++ (agentsSection prompts ++ (tplT1 ++ (existingRulesSection rules
    ++ (tplT2 ++ (rule_text ++ collapse tplT3)))))

/-- A number value with a positive-denominator representation, lying in
`[0, 1]` (the shape of a valid sub-score). -/
def validNum (v : JValue) : Bool :=
  match v with
  | .jnum q => decide (0 < q.den) && qle (Q.ofNat 0) q && qle q (Q.ofNat 1)
  | _ => false

/-- A present string value. -/
def isJStrOpt (v : Option JValue) : Bool :=
  match v with
  | some (.jstr _) => true
  | _ => false

/-- An absent value or a string (the shape `analysis` may take). -/
def strOrAbsent (v : Option JValue) : Bool :=
  match v with
  | none => true
  | some (.jstr _) => true
  | _ => false

/-- An absent value or a list of strings (the shape `concerns` may take). -/
def strListOrAbsent (v : Option JValue) : Bool :=
  match v with
  | none => true
  | some (.jarr xs) => xs.all (fun e => match e with | .jstr _ => true | _ => false)
  | _ => false

/-- A raw agent entry that is well formed for the whole pipeline: an object
carrying a string `agent_name` and `rule_to_apply`, three numeric sub-scores
in `[0, 1]`, and — when present — a string `analysis` and a string-list
`concerns`. Any further fields (such as a model-supplied overall score) are
unconstrained. -/
def validEntry (e : JValue) : Bool :=
  match e with
  | .jobj fs =>
    isJStrOpt (jLookup fs (cs "agent_name"))
      && validNum (jLookupD fs (cs "role_consistency_score") .jnull)
      && validNum (jLookupD fs (cs "authority_expansion_score") .jnull)
      && validNum (jLookupD fs (cs "instruction_conflicts_score") .jnull)
      && isJStrOpt (jLookup fs (cs "rule_to_apply"))
      && strOrAbsent (jLookup fs (cs "analysis"))
      && strListOrAbsent (jLookup fs (cs "concerns"))
  | _ => false

/-- String content of an optional value (unused fallback `[]`). -/
def jStrD (v : Option JValue) : List Char :=
  match v with
  | some (.jstr s) => s
  | _ => []

/-- The strings of a list value (unused fallback drops non-strings). -/
def strsOf : JValue → List (List Char)
  | .jarr xs => xs.filterMap (fun e => match e with | .jstr s => some s | _ => none)
  | _ => []

/-- The `AgentRuleInfo` built from a valid raw entry. -/
def toInfo (e : JValue) : AgentRuleInfo :=
  let fs := objFields e
  ⟨jStrD (jLookup fs (cs "agent_name")),
   pyNumVal (jLookupD fs (cs "role_consistency_score") .jnull),
   pyNumVal (jLookupD fs (cs "authority_expansion_score") .jnull),
   pyNumVal (jLookupD fs (cs "instruction_conflicts_score") .jnull),
   overallOf fs,
   jStrD (jLookup fs (cs "analysis")),
   strsOf (jLookupD fs (cs "concerns") (.jarr [])),
   jStrD (jLookup fs (cs "rule_to_apply"))⟩

/-- The threshold-filtered scored list produced from a list of valid raw
entries: exactly the entries whose computed mean meets the threshold, in
their original order. -/
def scoredOf (threshold : Q) (entries : List JValue) : List AgentRuleInfo :=
  (entries.filter (fun e => qle threshold (overallOf (objFields e)))).map toInfo

/-- A concrete model response used by witnesses: one agent entry with
sub-scores 0.9, 0.8, 0.85, wrapped in a json-tagged fence. -/
def respB : List Char :=
  cs "```json\n\x7b\"applied_agents\": [\x7b\"agent_name\": \"A\", \"role_consistency_score\": 0.9, \"authority_expansion_score\": 0.8, \"instruction_conflicts_score\": 0.85, \"rule_to_apply\": \"Do it\"\x7d], \"system_summary\": \"ok\"\x7d\n```"

/-- The `AgentRuleInfo` the pipeline builds from the entry of `respB`
(overall score 25500/30000 = 0.85). -/
def infoB : AgentRuleInfo :=
  ⟨cs "A", ⟨9, 10⟩, ⟨8, 10⟩, ⟨85, 100⟩, ⟨25500, 30000⟩, cs "", [], cs "Do it"⟩

/-- The outcome the pipeline returns for `respB` at threshold 0.7. -/
def outcomeB : RuleValidation :=
  ⟨true, ⟨25500, 30000⟩, cs "ok", cs "Rule validation completed", ⟨[infoB]⟩⟩

/-- The downstream pipeline with the recovery boundary of `validate_rule`
around it: `validate_rule` equals this applied to what the client returns
for the rendered default prompt (`validate_rule_run` below). -/
def runPipeline (threshold : Q) (contentRes : Except PyExc (List Char))
    (cb : Option (List AgentRuleInfo → Except PyExc (List AgentRuleInfo))) :
    Except PyExc RuleValidation :=
  match pipelineAfter threshold contentRes cb with
  | .ok v => .ok v
  | .error e => safeDefault e

/-! ### Concrete witness inputs -/

def entryC3A : JValue :=
  .jobj [(cs "agent_name", .jstr (cs "A")), (cs "role_consistency_score", .jnum ⟨9, 10⟩),
    (cs "authority_expansion_score", .jnum ⟨8, 10⟩),
    (cs "instruction_conflicts_score", .jnum ⟨85, 100⟩), (cs "rule_to_apply", .jstr (cs "X"))]

def entryC3B : JValue :=
  .jobj [(cs "agent_name", .jstr (cs "B")), (cs "role_consistency_score", .jnum ⟨5, 10⟩),
    (cs "authority_expansion_score", .jnum ⟨4, 10⟩),
    (cs "instruction_conflicts_score", .jnum ⟨3, 10⟩), (cs "rule_to_apply", .jstr (cs "Y"))]

def entriesC3 : List JValue := [entryC3A, entryC3B]

def respC3 : List Char :=
  cs "\x7b\"applied_agents\": [\x7b\"agent_name\": \"A\", \"role_consistency_score\": 0.9, \"authority_expansion_score\": 0.8, \"instruction_conflicts_score\": 0.85, \"rule_to_apply\": \"X\"\x7d, \x7b\"agent_name\": \"B\", \"role_consistency_score\": 0.5, \"authority_expansion_score\": 0.4, \"instruction_conflicts_score\": 0.3, \"rule_to_apply\": \"Y\"\x7d]\x7d"

def entryC4 : JValue :=
  .jobj [(cs "agent_name", .jstr (cs "A")), (cs "role_consistency_score", .jnum ⟨9, 10⟩),
    (cs "authority_expansion_score", .jnum ⟨8, 10⟩),
    (cs "instruction_conflicts_score", .jnum ⟨85, 100⟩),
    (cs "overall_compatibility_score", .jnum ⟨99, 100⟩),
    (cs "rule_to_apply", .jstr (cs "X"))]

def entryC10 : JValue :=
  .jobj [(cs "agent_name", .jstr (cs "A")), (cs "role_consistency_score", .jbool true),
    (cs "authority_expansion_score", .jnum ⟨1, 1⟩),
    (cs "instruction_conflicts_score", .jbool false), (cs "rule_to_apply", .jstr (cs "X"))]

def entryC7bad : JValue :=
  .jobj [(cs "agent_name", .jstr (cs "B")), (cs "role_consistency_score", .jnum ⟨15, 10⟩),
    (cs "authority_expansion_score", .jnum ⟨1, 1⟩),
    (cs "instruction_conflicts_score", .jnum ⟨0, 1⟩), (cs "rule_to_apply", .jstr (cs "Y"))]

def respC7 : List Char :=
  cs "\x7b\"applied_agents\": [\x7b\"agent_name\": \"A\", \"role_consistency_score\": 0.9, \"authority_expansion_score\": 0.8, \"instruction_conflicts_score\": 0.85, \"rule_to_apply\": \"X\"\x7d, \x7b\"agent_name\": \"B\", \"role_consistency_score\": 1.5, \"authority_expansion_score\": 1, \"instruction_conflicts_score\": 0, \"rule_to_apply\": \"Y\"\x7d]\x7d"

/-- No backtick occurs in `s` (a body that cannot open or close a fence,
the hypothesis under which the fence lemmas below run symbolically). -/
def noTick (s : List Char) : Bool := s.all (fun c => ! (c = '`'))

/-! ## Theorems -/

/-! ### The `str.format` engine on the default template -/

theorem pyFormatGo_noBrace (subs : List (List Char × List Char)) (t r : List Char)
    (h : noBrace t = true) :
    pyFormatGo subs .text (t ++ r) = (pyFormatGo subs .text r).map (fun out => t ++ out) := by
  induction t with
  | nil =>
    cases hx : pyFormatGo subs FmtState.text r <;> simp [hx]
  | cons c tr ih =>
    have hc : (¬(c = '{') ∧ ¬(c = '}')) ∧ noBrace tr = true := by
      simpa [noBrace, not_or] using h
    rw [List.cons_append]
    show (if c = '{' then pyFormatGo subs .afterOpen (tr ++ r)
      else if c = '}' then pyFormatGo subs .afterClose (tr ++ r)
      else (pyFormatGo subs .text (tr ++ r)).map (fun out => c :: out)) = _
    rw [if_neg hc.1.1, if_neg hc.1.2, ih hc.2]
    cases hx : pyFormatGo subs FmtState.text r <;> simp [hx]

theorem pyFormatGo_escOnly_aux (subs : List (List Char × List Char)) :
    ∀ n t, t.length ≤ n → escOnly t = true →
      pyFormatGo subs .text t = some (collapse t) := by
  intro n
  induction n with
  | zero =>
    intro t hlen _
    have : t = [] := List.length_eq_zero.mp (Nat.le_zero.mp hlen)
    subst this
    rfl
  | succ n ih =>
    intro t hlen h
    match t with
    | [] => rfl
    | c :: r =>
      rw [escOnly.eq_def] at h
      dsimp only [] at h
      by_cases hb : c = '{' ∨ c = '}'
      · rw [if_pos hb] at h
        match r with
        | [] => exact absurd h (by simp)
        | c2 :: r2 =>
          dsimp only [] at h
          have hc2 : c2 = c := by
            by_contra hne
            rw [if_neg hne] at h
            exact absurd h (by simp)
          subst hc2
          rw [if_pos rfl] at h
          have hr2 : pyFormatGo subs FmtState.text r2 = some (collapse r2) := by
            apply ih r2 _ h
            simp at hlen
            omega
          rw [collapse.eq_def]
          dsimp only []
          rw [if_pos hb, if_pos rfl]
          rcases hb with hb | hb <;> subst hb
          · show pyFormatGo subs .afterOpen ('{' :: r2) = _
            show (pyFormatGo subs FmtState.text r2).map (fun out => '{' :: out) = _
            rw [hr2]
            rfl
          · show pyFormatGo subs .afterClose ('}' :: r2) = _
            show (pyFormatGo subs FmtState.text r2).map (fun out => '}' :: out) = _
            rw [hr2]
            rfl
      · rw [if_neg hb] at h
        have hc : ¬(c = '{') ∧ ¬(c = '}') := not_or.mp hb
        have hr : pyFormatGo subs FmtState.text r = some (collapse r) := by
          apply ih r _ h
          simp at hlen
          omega
        rw [collapse.eq_def]
        dsimp only []
        rw [if_neg hb]
        show (if c = '{' then pyFormatGo subs .afterOpen r
          else if c = '}' then pyFormatGo subs .afterClose r
          else (pyFormatGo subs .text r).map (fun out => c :: out)) = _
        rw [if_neg hc.1, if_neg hc.2, hr]
        rfl

theorem pyFormatGo_escOnly (subs : List (List Char × List Char)) (t : List Char)
    (h : escOnly t = true) :
    pyFormatGo subs .text t = some (collapse t) :=
  pyFormatGo_escOnly_aux subs t.length t le_rfl h

theorem escOnly_append : ∀ {a b : List Char}, escOnly a = true → escOnly b = true →
    escOnly (a ++ b) = true := by
  have main : ∀ n a b, a.length ≤ n → escOnly a = true → escOnly b = true →
      escOnly (a ++ b) = true := by
    intro n
    induction n with
    | zero =>
      intro a b hlen ha hb
      have : a = [] := List.length_eq_zero.mp (Nat.le_zero.mp hlen)
      subst this
      simpa using hb
    | succ n ih =>
      intro a b hlen ha hb
      match a with
      | [] => simpa using hb
      | c :: r =>
        rw [escOnly.eq_def] at ha
        dsimp only [] at ha
        by_cases hbr : c = '{' ∨ c = '}'
        · rw [if_pos hbr] at ha
          match r with
          | [] => exact absurd ha (by simp)
          | c2 :: r2 =>
            dsimp only [] at ha
            have hc2 : c2 = c := by
              by_contra hne
              rw [if_neg hne] at ha
              exact absurd ha (by simp)
            subst hc2
            rw [if_pos rfl] at ha
            show escOnly (c2 :: c2 :: (r2 ++ b)) = true
            rw [escOnly.eq_def]
            dsimp only []
            rw [if_pos hbr, if_pos rfl]
            apply ih r2 b _ ha hb
            simp at hlen
            omega
        · rw [if_neg hbr] at ha
          show escOnly (c :: (r ++ b)) = true
          rw [escOnly.eq_def]
          dsimp only []
          rw [if_neg hbr]
          apply ih r b _ ha hb
          simp at hlen
          omega
  intro a b ha hb
  exact main a.length a b le_rfl ha hb

theorem noBrace_tplT0 : noBrace tplT0 = true := by rfl

theorem noBrace_tplT1 : noBrace tplT1 = true := by rfl

theorem noBrace_tplT2 : noBrace tplT2 = true := by rfl

theorem escOnly_tplT3 : escOnly tplT3 = true := by
  rw [tplT3]
  repeat' apply escOnly_append
  all_goals rfl

theorem ph_agents (rt asx ers r : List Char) :
    pyFormatGo [(cs "rule_text", rt), (cs "agents_section", asx), (cs "existing_rules_section", ers)]
      .text (cs "{agents_section}" ++ r)
    = (pyFormatGo [(cs "rule_text", rt), (cs "agents_section", asx), (cs "existing_rules_section", ers)]
        .text r).map (fun out => asx ++ out) := by rfl

theorem ph_existing (rt asx ers r : List Char) :
    pyFormatGo [(cs "rule_text", rt), (cs "agents_section", asx), (cs "existing_rules_section", ers)]
      .text (cs "{existing_rules_section}" ++ r)
    = (pyFormatGo [(cs "rule_text", rt), (cs "agents_section", asx), (cs "existing_rules_section", ers)]
        .text r).map (fun out => ers ++ out) := by rfl

theorem ph_rule (rt asx ers r : List Char) :
    pyFormatGo [(cs "rule_text", rt), (cs "agents_section", asx), (cs "existing_rules_section", ers)]
      .text (cs "{rule_text}" ++ r)
    = (pyFormatGo [(cs "rule_text", rt), (cs "agents_section", asx), (cs "existing_rules_section", ers)]
        .text r).map (fun out => rt ++ out) := by rfl

/-- `render` on the default template always succeeds and produces the four
chunks around the three substituted sections. -/
theorem renderDefault_eq (rt : List Char) (ps : List (List Char × List Char))
    (rules : Option (List ExistingRuleData)) :
    render defaultTemplate rt ps rules = some (renderedDefault rt ps rules) := by
  unfold render pyFormat defaultTemplate renderedDefault
  simp only [List.append_assoc]
  rw [pyFormatGo_noBrace _ _ _ noBrace_tplT0, ph_agents,
    pyFormatGo_noBrace _ _ _ noBrace_tplT1, ph_existing,
    pyFormatGo_noBrace _ _ _ noBrace_tplT2, ph_rule,
    pyFormatGo_escOnly _ _ escOnly_tplT3]
  rfl

theorem buildPrompt_ok (rt : List Char) (ps : List (List Char × List Char))
    (rules : Option (List CachedRuleCtx)) :
    buildValidationPrompt rt ps rules
      = .ok (renderedDefault rt ps (existingRulesData rules)) := by
  unfold buildValidationPrompt
  rw [renderDefault_eq]

/-- `validate_rule` is the downstream pipeline applied to whatever the model
client returns for the rendered default prompt, inside the recovery
boundary. -/
theorem validate_rule_run (t : Q) (rt : List Char) (ps : List (List Char × List Char))
    (rules : Option (List CachedRuleCtx)) (llm : List Char → Except PyExc (List Char))
    (cb : Option (List AgentRuleInfo → Except PyExc (List AgentRuleInfo))) :
    validate_rule t rt ps rules llm cb
      = runPipeline t (llm (renderedDefault rt ps (existingRulesData rules))) cb := by
  unfold validate_rule runPipeline validateRuleBody
  rw [buildPrompt_ok]
  rfl

/-! ### The fraction model and `Rat` -/

theorem Q.toRat_ofNat (n : Nat) : (Q.ofNat n).toRat = n := by
  simp [Q.ofNat, Q.toRat]

theorem qadd_wf {a b : Q} (ha : a.wf) (hb : b.wf) : (qadd a b).wf := by
  simp only [Q.wf, qadd] at *
  positivity

theorem qdivN_wf {a : Q} {k : Nat} (ha : a.wf) (hk : 0 < k) : (qdivN a k).wf := by
  simp only [Q.wf, qdivN] at *
  positivity

theorem qadd_toRat {a b : Q} (ha : a.wf) (hb : b.wf) :
    (qadd a b).toRat = a.toRat + b.toRat := by
  simp only [Q.wf] at ha hb
  have ha0 : ((a.den : Rat)) ≠ 0 := by positivity
  have hb0 : ((b.den : Rat)) ≠ 0 := by positivity
  simp only [qadd, Q.toRat]
  push_cast
  field_simp

theorem qdivN_toRat {a : Q} {k : Nat} (ha : a.wf) (hk : 0 < k) :
    (qdivN a k).toRat = a.toRat / (k : Rat) := by
  simp only [Q.wf] at ha
  have ha0 : ((a.den : Rat)) ≠ 0 := by positivity
  have hk0 : ((k : Rat)) ≠ 0 := by positivity
  simp only [qdivN, Q.toRat]
  push_cast
  rw [div_div]

theorem qle_iff {a b : Q} (ha : a.wf) (hb : b.wf) :
    qle a b = true ↔ a.toRat ≤ b.toRat := by
  simp only [Q.wf] at ha hb
  have ha0 : (0 : Rat) < (a.den : Rat) := by positivity
  have hb0 : (0 : Rat) < (b.den : Rat) := by positivity
  simp only [qle, Q.toRat, decide_eq_true_eq]
  rw [div_le_div_iff₀ ha0 hb0]
  constructor
  · intro h
    exact_mod_cast h
  · intro h
    exact_mod_cast h

theorem qlt_iff {a b : Q} (ha : a.wf) (hb : b.wf) :
    qlt a b = true ↔ a.toRat < b.toRat := by
  simp only [Q.wf] at ha hb
  have ha0 : (0 : Rat) < (a.den : Rat) := by positivity
  have hb0 : (0 : Rat) < (b.den : Rat) := by positivity
  simp only [qlt, Q.toRat, decide_eq_true_eq]
  rw [div_lt_div_iff₀ ha0 hb0]
  constructor
  · intro h
    exact_mod_cast h
  · intro h
    exact_mod_cast h

/-! ### The maximum of the applied scores -/

theorem maxOverall_mem {l : List AgentRuleInfo} (h : l ≠ []) :
    ∃ a ∈ l, maxOverall l = a.overall_compatibility_score := by
  match l with
  | [] => exact absurd rfl h
  | x :: xs =>
    rw [maxOverall]
    clear h
    induction xs generalizing x with
    | nil => exact ⟨x, List.mem_cons_self x [], rfl⟩
    | cons y ys ih =>
      rw [List.foldl_cons]
      by_cases hq : qlt x.overall_compatibility_score y.overall_compatibility_score = true
      · rw [if_pos hq]
        obtain ⟨a, hmem, heq⟩ := ih y
        exact ⟨a, by
          rcases List.mem_cons.mp hmem with h | h
          · subst h
            exact List.mem_cons_of_mem _ (List.mem_cons_self _ _)
          · exact List.mem_cons_of_mem _ (List.mem_cons_of_mem _ h), heq⟩
      · rw [if_neg hq]
        obtain ⟨a, hmem, heq⟩ := ih x
        exact ⟨a, by
          rcases List.mem_cons.mp hmem with h | h
          · subst h
            exact List.mem_cons_self _ _
          · exact List.mem_cons_of_mem _ (List.mem_cons_of_mem _ h), heq⟩

theorem maxOverall_fold_ge {xs : List AgentRuleInfo} {init : Q} (hinit : init.wf)
    (hxs : ∀ a ∈ xs, a.overall_compatibility_score.wf) :
    init.toRat ≤ (xs.foldl
        (fun acc a =>
          if qlt acc a.overall_compatibility_score then a.overall_compatibility_score else acc)
        init).toRat
    ∧ ∀ a ∈ xs, a.overall_compatibility_score.toRat ≤ (xs.foldl
        (fun acc a =>
          if qlt acc a.overall_compatibility_score then a.overall_compatibility_score else acc)
        init).toRat := by
  induction xs generalizing init with
  | nil => exact ⟨le_refl _, by simp⟩
  | cons y ys ih =>
    have hywf : y.overall_compatibility_score.wf := hxs y (List.mem_cons_self _ _)
    have hyswf : ∀ a ∈ ys, a.overall_compatibility_score.wf :=
      fun a ha => hxs a (List.mem_cons_of_mem _ ha)
    rw [List.foldl_cons]
    by_cases hq : qlt init y.overall_compatibility_score = true
    · rw [if_pos hq]
      obtain ⟨h1, h2⟩ := ih hywf hyswf
      have hlt := (qlt_iff hinit hywf).mp hq
      refine ⟨le_trans (le_of_lt hlt) h1, ?_⟩
      intro a ha
      rcases List.mem_cons.mp ha with h | h
      · subst h
        exact h1
      · exact h2 a h
    · rw [if_neg hq]
      obtain ⟨h1, h2⟩ := ih hinit hyswf
      have hge : y.overall_compatibility_score.toRat ≤ init.toRat := by
        by_contra hcon
        exact hq ((qlt_iff hinit hywf).mpr (lt_of_not_le hcon))
      refine ⟨h1, ?_⟩
      intro a ha
      rcases List.mem_cons.mp ha with h | h
      · subst h
        exact le_trans hge h1
      · exact h2 a h

theorem maxOverall_ge {l : List AgentRuleInfo}
    (hwf : ∀ a ∈ l, a.overall_compatibility_score.wf) :
    ∀ a ∈ l, a.overall_compatibility_score.toRat ≤ (maxOverall l).toRat := by
  match l with
  | [] => simp
  | x :: xs =>
    intro a ha
    rw [maxOverall]
    have hx := hwf x (List.mem_cons_self _ _)
    have hxs := fun b hb => hwf b (List.mem_cons_of_mem _ hb)
    obtain ⟨h1, h2⟩ := maxOverall_fold_ge hx hxs
    rcases List.mem_cons.mp ha with h | h
    · subst h
      exact h1
    · exact h2 a h

/-! ### Dissecting the orchestrator -/

theorem except_bind_ok {ε α β : Type} {x : Except ε α} {f : α → Except ε β} {v : β}
    (h : x >>= f = .ok v) : ∃ a, x = .ok a ∧ f a = .ok v := by
  cases x with
  | error e => simp [Bind.bind, Except.bind] at h
  | ok a => exact ⟨a, rfl, by simpa [Bind.bind, Except.bind] using h⟩

theorem mkRuleValidation_ok {can : Bool} {maxs : Q} {e1 e2 : List Char}
    {md : ValidationMetadata} {v : RuleValidation}
    (h : mkRuleValidation can maxs (some e1) (some e2) md = .ok v) :
    v = ⟨can, maxs, e1, e2, md⟩ := by
  unfold mkRuleValidation at h
  dsimp only [] at h
  by_cases hc : (qle (Q.ofNat 0) maxs && qle maxs (Q.ofNat 1)) = true
  · rw [if_pos hc] at h
    cases h
    rfl
  · rw [if_neg hc] at h
    cases h

/-- The `except` handler of `validate_rule` always raises: the safe-default
construction omits the required `explanation_en` field. -/
theorem safeDefault_err (e : PyExc) :
    safeDefault e = .error (.validationError "Field required") := rfl

theorem pipelineAfter_ok_shape {t : Q} {contentRes : Except PyExc (List Char)}
    {cb : Option (List AgentRuleInfo → Except PyExc (List AgentRuleInfo))}
    {v : RuleValidation} (h : pipelineAfter t contentRes cb = .ok v) :
    ∃ applied e1 e2,
      v = ⟨! applied.isEmpty, maxOverall applied, e1, e2, ⟨applied⟩⟩ := by
  unfold pipelineAfter at h
  obtain ⟨content, hc, h⟩ := except_bind_ok h
  obtain ⟨parsed, hp, h⟩ := except_bind_ok h
  obtain ⟨entries, he, h⟩ := except_bind_ok h
  obtain ⟨applied, hap, h⟩ := except_bind_ok h
  obtain ⟨applied2, hap2, h⟩ := except_bind_ok h
  obtain ⟨e1, he1, h⟩ := except_bind_ok h
  obtain ⟨e2, he2, h⟩ := except_bind_ok h
  exact ⟨applied2, e1, e2, mkRuleValidation_ok h⟩

theorem validate_rule_ok_iff {t : Q} {rt : List Char} {ps : List (List Char × List Char)}
    {rules : Option (List CachedRuleCtx)} {llm : List Char → Except PyExc (List Char)}
    {cb : Option (List AgentRuleInfo → Except PyExc (List AgentRuleInfo))}
    {v : RuleValidation} :
    validate_rule t rt ps rules llm cb = .ok v ↔
      validateRuleBody t rt ps rules llm cb = .ok v := by
  unfold validate_rule
  generalize validateRuleBody t rt ps rules llm cb = x
  cases x with
  | ok w => exact Iff.rfl
  | error e =>
    dsimp only []
    rw [safeDefault_err]
    constructor
    · intro h
      cases h
    · intro h
      cases h

/-! ## The claims -/

/-- C1 (code bug): the claim — backed by the spec, the docstring of
`validate_rule`, and `test_validate_rule_llm_error_returns_safe_default` —
says `validate_rule` never raises and converts every failure into a
safe-default outcome. In the code the `except` handler constructs the
safe-default `RuleValidation` without the `explanation_en` field, which
`models.py` declares as required, so the construction itself raises a
pydantic `ValidationError` that propagates to the caller. Evaluated at the
Scenario D input (model returns `"not json at all"`): the call returns the
propagated exception, not a safe-default outcome. -/
theorem c1_safe_default_construction_raises :
    validate_rule ⟨7, 10⟩ (cs "Always be polite")
      [(cs "Agent1", cs "You are a helpful assistant")] none
      (fun _ => .ok (cs "not json at all")) none
      = .error (.validationError "Field required") := by
  rw [validate_rule_run]
  rfl

/-- C2: every outcome `validate_rule` returns satisfies the invariant:
`can_be_applied` holds iff `applied_agents` is non-empty, and
`max_compatibility_score` is the maximum of the applied overall scores
(attained by one of them and an upper bound of all), or 0.0 when the list
is empty. The well-formedness hypothesis only states that the fraction
representations carried by the outcome have positive denominators, which
every value of the embedding satisfies (a Python float always does); the
safe-default branch of the source never returns (see C1), and its field
values (`false`, `0.0`, `[]`) satisfy the same invariant trivially. -/
theorem c2_outcome_invariant
    (t : Q) (rt : List Char) (ps : List (List Char × List Char))
    (rules : Option (List CachedRuleCtx)) (llm : List Char → Except PyExc (List Char))
    (cb : Option (List AgentRuleInfo → Except PyExc (List AgentRuleInfo)))
    (v : RuleValidation)
    (hok : validate_rule t rt ps rules llm cb = .ok v)
    (hwf : ∀ a ∈ v.validation_metadata.applied_agents, a.overall_compatibility_score.wf) :
    (v.can_be_applied = true ↔ v.validation_metadata.applied_agents ≠ [])
    ∧ (v.validation_metadata.applied_agents = [] → v.max_compatibility_score.toRat = 0)
    ∧ (v.validation_metadata.applied_agents ≠ [] →
        (∃ a ∈ v.validation_metadata.applied_agents,
            v.max_compatibility_score = a.overall_compatibility_score)
        ∧ ∀ a ∈ v.validation_metadata.applied_agents,
            a.overall_compatibility_score.toRat ≤ v.max_compatibility_score.toRat) := by
  have hb := validate_rule_ok_iff.mp hok
  unfold validateRuleBody at hb
  obtain ⟨applied, e1, e2, hv⟩ := pipelineAfter_ok_shape hb
  subst hv
  simp only at hwf ⊢
  refine ⟨?_, ?_, ?_⟩
  · simp [List.isEmpty_iff]
  · intro hnil
    subst hnil
    simp [maxOverall, Q.toRat_ofNat, Q.ofNat, Q.toRat]
  · intro hne
    exact ⟨maxOverall_mem hne, maxOverall_ge hwf⟩

/-- Witness for C2 at the `respB` run (one applied agent, overall 0.85). -/
theorem c2_outcome_invariant_witness :
    (validate_rule ⟨7, 10⟩ (cs "R") [(cs "A", cs "P")] none
        (fun _ => .ok respB) none = .ok outcomeB)
    ∧ ((outcomeB.can_be_applied = true ↔ outcomeB.validation_metadata.applied_agents ≠ [])
      ∧ (outcomeB.validation_metadata.applied_agents = [] →
          outcomeB.max_compatibility_score.toRat = 0)
      ∧ (outcomeB.validation_metadata.applied_agents ≠ [] →
          (∃ a ∈ outcomeB.validation_metadata.applied_agents,
              outcomeB.max_compatibility_score = a.overall_compatibility_score)
          ∧ ∀ a ∈ outcomeB.validation_metadata.applied_agents,
              a.overall_compatibility_score.toRat ≤ outcomeB.max_compatibility_score.toRat)) :=
  have hok : validate_rule ⟨7, 10⟩ (cs "R") [(cs "A", cs "P")] none
      (fun _ => .ok respB) none = .ok outcomeB := by
    rw [validate_rule_run]
    rfl
  ⟨hok, c2_outcome_invariant _ _ _ _ _ _ _ hok (by
    intro a ha
    simp only [outcomeB, infoB, ValidationMetadata.mk] at ha
    simp only [List.mem_singleton] at ha
    subst ha
    exact (by decide : (0 : Nat) < 30000))⟩

theorem ofNat_wf (n : Nat) : (Q.ofNat n).wf := Nat.one_pos

theorem isJStrOpt_shape {v : Option JValue} (h : isJStrOpt v = true) :
    ∃ s, v = some (.jstr s) := by
  match v with
  | some (.jstr s) => exact ⟨s, rfl⟩
  | none | some .jnull | some (.jbool _) | some (.jnum _) | some (.jarr _) | some (.jobj _) =>
    exact absurd h (by simp [isJStrOpt])

theorem validNum_shape {v : JValue} (h : validNum v = true) :
    ∃ q, v = .jnum q ∧ q.wf ∧ qle (Q.ofNat 0) q = true ∧ qle q (Q.ofNat 1) = true := by
  match v with
  | .jnum q =>
    have hx : (0 < q.den ∧ qle (Q.ofNat 0) q = true) ∧ qle q (Q.ofNat 1) = true := by
      simpa [validNum, Bool.and_eq_true, decide_eq_true_eq] using h
    exact ⟨q, rfl, hx.1.1, hx.1.2, hx.2⟩
  | .jnull | .jbool _ | .jstr _ | .jarr _ | .jobj _ =>
    exact absurd h (by simp [validNum])

theorem strOrAbsent_shape {v : Option JValue} (h : strOrAbsent v = true) :
    v = none ∨ ∃ s, v = some (.jstr s) := by
  match v with
  | none => exact Or.inl rfl
  | some (.jstr s) => exact Or.inr ⟨s, rfl⟩
  | some .jnull | some (.jbool _) | some (.jnum _) | some (.jarr _) | some (.jobj _) =>
    exact absurd h (by simp [strOrAbsent])

theorem strListOrAbsent_shape {v : Option JValue} (h : strListOrAbsent v = true) :
    v = none ∨ ∃ xs, v = some (.jarr xs)
      ∧ (xs.all (fun e => match e with | .jstr _ => true | _ => false)) = true := by
  match v with
  | none => exact Or.inl rfl
  | some (.jarr xs) =>
    exact Or.inr ⟨xs, rfl, by simpa [strListOrAbsent] using h⟩
  | some .jnull | some (.jbool _) | some (.jnum _) | some (.jstr _) | some (.jobj _) =>
    exact absurd h (by simp [strListOrAbsent])

theorem mapM_all_str {xs : List JValue}
    (h : (xs.all (fun e => match e with | .jstr _ => true | _ => false)) = true) :
    (xs.mapM (fun e =>
      match e with
      | .jstr s => Except.ok s
      | _ => Except.error (PyExc.validationError "Input should be a valid string")))
      = Except.ok (strsOf (.jarr xs)) := by
  induction xs with
  | nil => rfl
  | cons x rest ih =>
    simp only [List.all_cons, Bool.and_eq_true] at h
    match x, h.1 with
    | .jstr s, _ =>
      have := ih h.2
      simp only [strsOf] at this ⊢
      simp only [List.mapM_cons, this]
      simp [List.filterMap_cons]
      rfl


theorem jLookupD_eq_jnum {fs : List (List Char × JValue)} {k : List Char} {q : Q}
    (h : jLookupD fs k .jnull = .jnum q) : jLookup fs k = some (.jnum q) := by
  unfold jLookupD at h
  match hx : jLookup fs k with
  | none =>
    rw [hx] at h
    exact absurd h (by simp [Option.getD])
  | some v =>
    rw [hx] at h
    simp only [Option.getD] at h
    rw [h]

theorem three_pos : 0 < three := by decide

theorem overall_facts {q1 q2 q3 : Q}
    (w1 : q1.wf) (w2 : q2.wf) (w3 : q3.wf)
    (l1 : qle (Q.ofNat 0) q1 = true) (u1 : qle q1 (Q.ofNat 1) = true)
    (l2 : qle (Q.ofNat 0) q2 = true) (u2 : qle q2 (Q.ofNat 1) = true)
    (l3 : qle (Q.ofNat 0) q3 = true) (u3 : qle q3 (Q.ofNat 1) = true) :
    (qdivN (qadd (qadd q1 q2) q3) three).wf
    ∧ (qdivN (qadd (qadd q1 q2) q3) three).toRat
        = (q1.toRat + q2.toRat + q3.toRat) / 3
    ∧ qle (Q.ofNat 0) (qdivN (qadd (qadd q1 q2) q3) three) = true
    ∧ qle (qdivN (qadd (qadd q1 q2) q3) three) (Q.ofNat 1) = true := by
  have w12 : (qadd q1 q2).wf := qadd_wf w1 w2
  have w123 : (qadd (qadd q1 q2) q3).wf := qadd_wf w12 w3
  have wall : (qdivN (qadd (qadd q1 q2) q3) three).wf := qdivN_wf w123 three_pos
  have heq : (qdivN (qadd (qadd q1 q2) q3) three).toRat
      = (q1.toRat + q2.toRat + q3.toRat) / 3 := by
    rw [qdivN_toRat w123 three_pos, qadd_toRat w12 w3, qadd_toRat w1 w2]
    norm_num [three]
  have h0 : (Q.ofNat 0).toRat = 0 := by
    rw [Q.toRat_ofNat]
    norm_num
  have h1 : (Q.ofNat 1).toRat = 1 := by
    rw [Q.toRat_ofNat]
    norm_num
  have t1l := (qle_iff (ofNat_wf 0) w1).mp l1
  have t1u := (qle_iff w1 (ofNat_wf 1)).mp u1
  have t2l := (qle_iff (ofNat_wf 0) w2).mp l2
  have t2u := (qle_iff w2 (ofNat_wf 1)).mp u2
  have t3l := (qle_iff (ofNat_wf 0) w3).mp l3
  have t3u := (qle_iff w3 (ofNat_wf 1)).mp u3
  rw [h0] at t1l t2l t3l
  rw [h1] at t1u t2u t3u
  refine ⟨wall, heq, ?_, ?_⟩
  · rw [qle_iff (ofNat_wf 0) wall, h0, heq]
    linarith
  · rw [qle_iff wall (ofNat_wf 1), h1, heq]
    linarith


theorem validEntry_shape {fs : List (List Char × JValue)} (h : validEntry (.jobj fs) = true) :
    ∃ nm q1 q2 q3 rta,
      jLookup fs (cs "agent_name") = some (.jstr nm)
      ∧ jLookup fs (cs "role_consistency_score") = some (.jnum q1)
      ∧ jLookup fs (cs "authority_expansion_score") = some (.jnum q2)
      ∧ jLookup fs (cs "instruction_conflicts_score") = some (.jnum q3)
      ∧ jLookup fs (cs "rule_to_apply") = some (.jstr rta)
      ∧ (q1.wf ∧ qle (Q.ofNat 0) q1 = true ∧ qle q1 (Q.ofNat 1) = true)
      ∧ (q2.wf ∧ qle (Q.ofNat 0) q2 = true ∧ qle q2 (Q.ofNat 1) = true)
      ∧ (q3.wf ∧ qle (Q.ofNat 0) q3 = true ∧ qle q3 (Q.ofNat 1) = true)
      ∧ (jLookup fs (cs "analysis") = none
          ∨ ∃ s, jLookup fs (cs "analysis") = some (.jstr s))
      ∧ (jLookup fs (cs "concerns") = none
          ∨ ∃ xs, jLookup fs (cs "concerns") = some (.jarr xs)
              ∧ (xs.all (fun e => match e with | .jstr _ => true | _ => false)) = true) := by
  simp only [validEntry, Bool.and_eq_true] at h
  obtain ⟨⟨⟨⟨⟨⟨han, hrc⟩, hae⟩, hic⟩, hrta⟩, hana⟩, hcon⟩ := h
  obtain ⟨nm, hnm⟩ := isJStrOpt_shape han
  obtain ⟨q1, hq1, f1⟩ := validNum_shape hrc
  obtain ⟨q2, hq2, f2⟩ := validNum_shape hae
  obtain ⟨q3, hq3, f3⟩ := validNum_shape hic
  obtain ⟨rta, hrtas⟩ := isJStrOpt_shape hrta
  exact ⟨nm, q1, q2, q3, rta, hnm, jLookupD_eq_jnum hq1, jLookupD_eq_jnum hq2,
    jLookupD_eq_jnum hq3, hrtas, f1, f2, f3, strOrAbsent_shape hana, strListOrAbsent_shape hcon⟩

theorem checkEntry_of_valid {e : JValue} (h : validEntry e = true) : checkEntry e = .ok () := by
  match e with
  | .jobj fs =>
    obtain ⟨nm, q1, q2, q3, rta, hnm, h1, h2, h3, hrta, f1, f2, f3, _, _⟩ := validEntry_shape h
    have hfind1 : requiredFields.find? (fun f => (jLookup fs f).isNone) = none := by
      rw [List.find?_eq_none]
      intro f hf
      simp only [requiredFields, List.mem_cons, List.not_mem_nil, or_false] at hf
      rcases hf with rfl | rfl | rfl | rfl | rfl
      · simp [hnm]
      · simp [h1]
      · simp [h2]
      · simp [h3]
      · simp [hrta]
    have hfind2 : scoreFields.find? (fun f => ! scoreOk (jLookupD fs f .jnull)) = none := by
      rw [List.find?_eq_none]
      intro f hf
      simp only [scoreFields, List.mem_cons, List.not_mem_nil, or_false] at hf
      have hd1 : jLookupD fs (cs "role_consistency_score") .jnull = .jnum q1 := by
        simp [jLookupD, h1]
      have hd2 : jLookupD fs (cs "authority_expansion_score") .jnull = .jnum q2 := by
        simp [jLookupD, h2]
      have hd3 : jLookupD fs (cs "instruction_conflicts_score") .jnull = .jnum q3 := by
        simp [jLookupD, h3]
      rcases hf with rfl | rfl | rfl
      · simp [hd1, scoreOk, isPyNumber, pyNumVal, f1.2.1, f1.2.2]
      · simp [hd2, scoreOk, isPyNumber, pyNumVal, f2.2.1, f2.2.2]
      · simp [hd3, scoreOk, isPyNumber, pyNumVal, f3.2.1, f3.2.2]
    unfold checkEntry
    dsimp only []
    rw [hfind1, hfind2]
  | .jnull | .jbool _ | .jnum _ | .jstr _ | .jarr _ =>
    exact absurd h (by simp [validEntry])


theorem overallOf_eq {fs : List (List Char × JValue)} {q1 q2 q3 : Q}
    (h1 : jLookup fs (cs "role_consistency_score") = some (.jnum q1))
    (h2 : jLookup fs (cs "authority_expansion_score") = some (.jnum q2))
    (h3 : jLookup fs (cs "instruction_conflicts_score") = some (.jnum q3)) :
    overallOf fs = qdivN (qadd (qadd q1 q2) q3) three := by
  unfold overallOf jLookupD
  rw [h1, h2, h3]
  rfl

theorem mkAgentRuleInfo_of_valid {fs : List (List Char × JValue)}
    (h : validEntry (.jobj fs) = true) :
    mkAgentRuleInfo fs (overallOf fs) = .ok (toInfo (.jobj fs)) := by
  obtain ⟨nm, q1, q2, q3, rta, hnm, h1, h2, h3, hrta, f1, f2, f3, hana, hcon⟩ :=
    validEntry_shape h
  obtain ⟨hov_wf, hov_eq, hov_l, hov_u⟩ :=
    overall_facts f1.1 f2.1 f3.1 f1.2.1 f1.2.2 f2.2.1 f2.2.2 f3.2.1 f3.2.2
  rw [overallOf_eq h1 h2 h3]
  unfold mkAgentRuleInfo
  simp only [Bind.bind, Except.bind, hnm, h1, h2, h3, hrta, pyStrReq, pyScoreField,
    f1.2.1, f1.2.2, f2.2.1, f2.2.2, f3.2.1, f3.2.2, Bool.and_self, if_true, hov_l, hov_u]
  unfold toInfo
  dsimp only [objFields]
  rw [overallOf_eq h1 h2 h3]
  rcases hcon with hcn | ⟨xs, hcx, hcall⟩
  · rcases hana with han | ⟨s, has⟩
    · simp only [han, hcn, jLookupD, Option.getD, pyStrList, List.mapM_nil, jStrD,
        hnm, hrta, h1, h2, h3, pyNumVal, strsOf, List.filterMap_nil]
      rfl
    · simp only [has, hcn, jLookupD, Option.getD, pyStrList, List.mapM_nil, jStrD,
        hnm, hrta, h1, h2, h3, pyNumVal, strsOf, List.filterMap_nil]
      rfl
  · rcases hana with han | ⟨s, has⟩
    · simp only [han, hcx, jLookupD, Option.getD, jStrD, hnm, hrta, h1, h2, h3, pyNumVal]
      rw [show (pyStrList (.jarr xs)) = (xs.mapM (fun e =>
        match e with
        | .jstr s => Except.ok s
        | _ => Except.error (PyExc.validationError "Input should be a valid string"))) from rfl]
      rw [mapM_all_str hcall]
      simp only [strsOf]
      rfl
    · simp only [has, hcx, jLookupD, Option.getD, jStrD, hnm, hrta, h1, h2, h3, pyNumVal]
      rw [show (pyStrList (.jarr xs)) = (xs.mapM (fun e =>
        match e with
        | .jstr s => Except.ok s
        | _ => Except.error (PyExc.validationError "Input should be a valid string"))) from rfl]
      rw [mapM_all_str hcall]
      simp only [strsOf]
      rfl


theorem buildOne_valid {t : Q} {e : JValue} (h : validEntry e = true) :
    buildOne t e = .ok (if qle t (overallOf (objFields e)) = true then some (toInfo e) else none) := by
  match e with
  | .jobj fs =>
    obtain ⟨nm, q1, q2, q3, rta, hnm, h1, h2, h3, hrta, f1, f2, f3, hana, hcon⟩ :=
      validEntry_shape h
    unfold buildOne
    simp only [Bind.bind, Except.bind, getItem, h1, h2, h3, objFields]
    by_cases hth : qle t (overallOf fs) = true
    · rw [if_pos hth, if_pos hth]
      simp only [Bind.bind, Except.bind, mkAgentRuleInfo_of_valid h]
      rfl
    · rw [if_neg hth, if_neg hth]
      rfl
  | .jnull | .jbool _ | .jnum _ | .jstr _ | .jarr _ =>
    exact absurd h (by simp [validEntry])

theorem buildApplied_of_valid {t : Q} {entries : List JValue}
    (h : ∀ e ∈ entries, validEntry e = true) :
    buildApplied t entries = .ok (scoredOf t entries) := by
  induction entries with
  | nil => rfl
  | cons e rest ih =>
    have he := h e (List.mem_cons_self _ _)
    have hrest := ih (fun x hx => h x (List.mem_cons_of_mem _ hx))
    unfold buildApplied
    simp only [Bind.bind, Except.bind, buildOne_valid he, hrest]
    unfold scoredOf
    by_cases hth : qle t (overallOf (objFields e)) = true
    · rw [if_pos hth, List.filter_cons_of_pos (by simpa using hth)]
      simp only [List.map_cons]
      rfl
    · rw [if_neg hth, List.filter_cons_of_neg (by simpa using hth)]
      rfl

theorem checkEntries_of_valid {entries : List JValue}
    (h : ∀ e ∈ entries, validEntry e = true) :
    checkEntries entries = .ok () := by
  induction entries with
  | nil => rfl
  | cons e rest ih =>
    unfold checkEntries
    simp only [Bind.bind, Except.bind, checkEntry_of_valid (h e (List.mem_cons_self _ _))]
    exact ih (fun x hx => h x (List.mem_cons_of_mem _ hx))


theorem scored_overall_facts {t : Q} {entries : List JValue}
    (hval : ∀ e ∈ entries, validEntry e = true) :
    ∀ a ∈ scoredOf t entries, a.overall_compatibility_score.wf
      ∧ qle (Q.ofNat 0) a.overall_compatibility_score = true
      ∧ qle a.overall_compatibility_score (Q.ofNat 1) = true := by
  intro a ha
  unfold scoredOf at ha
  simp only [List.mem_map, List.mem_filter] at ha
  obtain ⟨e, ⟨hmem, _⟩, rfl⟩ := ha
  have hv := hval e hmem
  match e with
  | .jobj fs =>
    obtain ⟨nm, q1, q2, q3, rta, hnm, h1, h2, h3, hrta, f1, f2, f3, _, _⟩ :=
      validEntry_shape hv
    obtain ⟨hw, _, hl, hu⟩ :=
      overall_facts f1.1 f2.1 f3.1 f1.2.1 f1.2.2 f2.2.1 f2.2.2 f3.2.1 f3.2.2
    have hov : (toInfo (.jobj fs)).overall_compatibility_score = overallOf fs := rfl
    rw [hov, overallOf_eq h1 h2 h3]
    exact ⟨hw, hl, hu⟩
  | .jnull | .jbool _ | .jnum _ | .jstr _ | .jarr _ =>
    exact absurd hv (by simp [validEntry])

theorem maxOverall_range {l : List AgentRuleInfo}
    (hf : ∀ a ∈ l, a.overall_compatibility_score.wf
      ∧ qle (Q.ofNat 0) a.overall_compatibility_score = true
      ∧ qle a.overall_compatibility_score (Q.ofNat 1) = true) :
    qle (Q.ofNat 0) (maxOverall l) = true ∧ qle (maxOverall l) (Q.ofNat 1) = true := by
  match l with
  | [] => exact ⟨by decide, by decide⟩
  | x :: xs =>
    obtain ⟨a, ham, heq⟩ := maxOverall_mem (l := x :: xs) (by simp)
    rw [heq]
    exact ⟨(hf a ham).2.1, (hf a ham).2.2⟩

theorem pipelineAfter_valid (t : Q) (entries : List JValue) (content : List Char)
    (hparse : safe_json_parse content = .ok (.jobj [(cs "applied_agents", .jarr entries)]))
    (hval : ∀ e ∈ entries, validEntry e = true) :
    pipelineAfter t (.ok content) none
      = .ok ⟨! (scoredOf t entries).isEmpty, maxOverall (scoredOf t entries),
          dfltSummary, dfltSummaryEn, ⟨scoredOf t entries⟩⟩ := by
  have hlu : jLookup [(cs "applied_agents", JValue.jarr entries)] (cs "applied_agents")
      = some (.jarr entries) := by rfl
  have hs1 : jLookup [(cs "applied_agents", JValue.jarr entries)] (cs "system_summary")
      = none := by rfl
  have hs2 : jLookup [(cs "applied_agents", JValue.jarr entries)] (cs "system_summary_en")
      = none := by rfl
  have hpvr : parseValidationResponse content
      = .ok (.jobj [(cs "applied_agents", .jarr entries)]) := by
    unfold parseValidationResponse validateParsed
    simp only [Bind.bind, Except.bind, hparse, objFields, hlu, entriesOf,
      checkEntries_of_valid hval]
    rfl
  obtain ⟨hml, hmu⟩ := maxOverall_range (scored_overall_facts (t := t) hval)
  unfold pipelineAfter
  simp only [Bind.bind, Except.bind, hpvr, objFields, jLookupD, hlu, Option.getD,
    entriesOf, buildApplied_of_valid hval, pyStrGetD, hs1, hs2]
  unfold mkRuleValidation
  dsimp only []
  rw [if_pos (by rw [hml, hmu]; rfl : (qle (Q.ofNat 0) (maxOverall (scoredOf t entries))
    && qle (maxOverall (scoredOf t entries)) (Q.ofNat 1)) = true)]


/-- C3: for every threshold and every list of valid raw agent entries, with
no override filter supplied, the call succeeds (entries below threshold are
dropped silently, raising nothing) and `appliedAgents` is exactly the
order-preserving sublist of entries whose computed overall score meets the
threshold, each converted to its `AgentRuleInfo`; the last conjunct
identifies the comparison used by the code with the rational inequality
`threshold ≤ overallScore`. -/
theorem c3_threshold_filter
    (t : Q) (entries : List JValue) (content rt : List Char)
    (ps : List (List Char × List Char)) (rules : Option (List CachedRuleCtx))
    (llm : List Char → Except PyExc (List Char))
    (htwf : t.wf)
    (hllm : llm (renderedDefault rt ps (existingRulesData rules)) = .ok content)
    (hparse : safe_json_parse content = .ok (.jobj [(cs "applied_agents", .jarr entries)]))
    (hval : ∀ e ∈ entries, validEntry e = true) :
    ∃ v, validate_rule t rt ps rules llm none = .ok v
      ∧ v.validation_metadata.applied_agents
          = (entries.filter (fun e => qle t (overallOf (objFields e)))).map toInfo
      ∧ ∀ e ∈ entries, (qle t (overallOf (objFields e)) = true
          ↔ t.toRat ≤ (overallOf (objFields e)).toRat) := by
  refine ⟨⟨! (scoredOf t entries).isEmpty, maxOverall (scoredOf t entries),
    dfltSummary, dfltSummaryEn, ⟨scoredOf t entries⟩⟩, ?_, rfl, ?_⟩
  · rw [validate_rule_run, hllm]
    unfold runPipeline
    rw [pipelineAfter_valid t entries content hparse hval]
  · intro e he
    have hv := hval e he
    match e with
    | .jobj fs =>
      obtain ⟨nm, q1, q2, q3, rta, hnm, h1, h2, h3, hrta, f1, f2, f3, _, _⟩ :=
        validEntry_shape hv
      obtain ⟨hw, _, _, _⟩ :=
        overall_facts f1.1 f2.1 f3.1 f1.2.1 f1.2.2 f2.2.1 f2.2.2 f3.2.1 f3.2.2
      have : overallOf (objFields (.jobj fs)) = qdivN (qadd (qadd q1 q2) q3) three := by
        dsimp only [objFields]
        exact overallOf_eq h1 h2 h3
      rw [this]
      exact qle_iff htwf hw
    | .jnull | .jbool _ | .jnum _ | .jstr _ | .jarr _ =>
      exact absurd hv (by simp [validEntry])


/-- Witness for C3: two concrete entries, means 0.85 and 0.4, threshold
0.7; the applied list keeps exactly the first. -/
theorem c3_witness :
    (⟨7, 10⟩ : Q).wf
    ∧ ((fun _ => Except.ok respC3) (renderedDefault (cs "R") [(cs "A", cs "P")]
        (existingRulesData none)) = Except.ok (ε := PyExc) respC3)
    ∧ safe_json_parse respC3 = .ok (.jobj [(cs "applied_agents", .jarr entriesC3)])
    ∧ (∀ e ∈ entriesC3, validEntry e = true)
    ∧ ((entriesC3.filter (fun e => qle ⟨7, 10⟩ (overallOf (objFields e)))).map toInfo
        = [toInfo entryC3A])
    ∧ ∃ v, validate_rule ⟨7, 10⟩ (cs "R") [(cs "A", cs "P")] none
          (fun _ => .ok respC3) none = .ok v
        ∧ v.validation_metadata.applied_agents
            = (entriesC3.filter (fun e => qle ⟨7, 10⟩ (overallOf (objFields e)))).map toInfo
        ∧ ∀ e ∈ entriesC3, (qle ⟨7, 10⟩ (overallOf (objFields e)) = true
            ↔ (⟨7, 10⟩ : Q).toRat ≤ (overallOf (objFields e)).toRat) :=
  ⟨by unfold Q.wf; decide, rfl, by rfl,
   by
    intro e he
    simp only [entriesC3, List.mem_cons, List.not_mem_nil, or_false] at he
    rcases he with rfl | rfl <;> rfl,
   by rfl,
   c3_threshold_filter ⟨7, 10⟩ entriesC3 respC3 (cs "R") [(cs "A", cs "P")] none
     (fun _ => .ok respC3) (by unfold Q.wf; decide) rfl (by rfl)
     (by
      intro e he
      simp only [entriesC3, List.mem_cons, List.not_mem_nil, or_false] at he
      rcases he with rfl | rfl <;> rfl)⟩


/-- C4: for an entry with valid numeric sub-scores `q1 q2 q3`, the overall
score recorded in the resulting `AgentRuleInfo` is exactly
`(q1 + q2 + q3) / 3` (exact rational arithmetic, hence within any
tolerance of the float computation), even when the entry carries an
`overall_compatibility_score` field with an arbitrary value `z`: the
conclusion does not depend on `z`. -/
theorem c4_overall_is_mean
    (t : Q) (fs : List (List Char × JValue)) (q1 q2 q3 : Q) (z : JValue)
    (hval : validEntry (.jobj fs) = true)
    (h1 : jLookup fs (cs "role_consistency_score") = some (.jnum q1))
    (h2 : jLookup fs (cs "authority_expansion_score") = some (.jnum q2))
    (h3 : jLookup fs (cs "instruction_conflicts_score") = some (.jnum q3))
    (_hz : jLookup fs (cs "overall_compatibility_score") = some z)
    (hth : qle t (overallOf fs) = true) :
    buildOne t (.jobj fs) = .ok (some (toInfo (.jobj fs)))
    ∧ (toInfo (.jobj fs)).overall_compatibility_score.toRat
        = (q1.toRat + q2.toRat + q3.toRat) / 3 := by
  obtain ⟨nm, q1x, q2x, q3x, rta, hnm, h1x, h2x, h3x, hrta, f1, f2, f3, _, _⟩ :=
    validEntry_shape hval
  rw [h1] at h1x
  rw [h2] at h2x
  rw [h3] at h3x
  cases h1x
  cases h2x
  cases h3x
  obtain ⟨hw, hov_eq, _, _⟩ :=
    overall_facts f1.1 f2.1 f3.1 f1.2.1 f1.2.2 f2.2.1 f2.2.2 f3.2.1 f3.2.2
  constructor
  · rw [buildOne_valid hval]
    have : qle t (overallOf (objFields (.jobj fs))) = true := by
      dsimp only [objFields]
      exact hth
    rw [if_pos this]
  · have hto : (toInfo (.jobj fs)).overall_compatibility_score = overallOf fs := rfl
    rw [hto, overallOf_eq h1 h2 h3]
    exact hov_eq


/-- Witness for C4: an entry whose supplied overall field says 0.99 while
the sub-scores are 0.9, 0.8, 0.85; the recorded overall is their mean, not
0.99. -/
theorem c4_witness :
    validEntry entryC4 = true
    ∧ jLookup (objFields entryC4) (cs "overall_compatibility_score") = some (.jnum ⟨99, 100⟩)
    ∧ (buildOne ⟨7, 10⟩ entryC4 = .ok (some (toInfo entryC4))
        ∧ (toInfo entryC4).overall_compatibility_score.toRat
            = ((⟨9, 10⟩ : Q).toRat + (⟨8, 10⟩ : Q).toRat + (⟨85, 100⟩ : Q).toRat) / 3)
    ∧ (toInfo entryC4).overall_compatibility_score.toRat ≠ (⟨99, 100⟩ : Q).toRat :=
  have hmain0 := c4_overall_is_mean ⟨7, 10⟩ (objFields entryC4) ⟨9, 10⟩ ⟨8, 10⟩ ⟨85, 100⟩
    (.jnum ⟨99, 100⟩) (by rfl) (by rfl) (by rfl) (by rfl) (by rfl) (by rfl)
  have hC4 : JValue.jobj (objFields entryC4) = entryC4 := rfl
  have hmain : buildOne ⟨7, 10⟩ entryC4 = .ok (some (toInfo entryC4))
      ∧ (toInfo entryC4).overall_compatibility_score.toRat
          = ((⟨9, 10⟩ : Q).toRat + (⟨8, 10⟩ : Q).toRat + (⟨85, 100⟩ : Q).toRat) / 3 := by
    rw [hC4] at hmain0
    exact hmain0
  ⟨by rfl, by rfl, hmain, by
    rw [hmain.2]
    unfold Q.toRat
    norm_num⟩

theorem pipelineAfter_valid_cb (t : Q) (entries : List JValue) (content : List Char)
    (f : List AgentRuleInfo → Except PyExc (List AgentRuleInfo)) (l2 : List AgentRuleInfo)
    (hparse : safe_json_parse content = .ok (.jobj [(cs "applied_agents", .jarr entries)]))
    (hval : ∀ e ∈ entries, validEntry e = true)
    (hf : f (scoredOf t entries) = .ok l2)
    (hml : qle (Q.ofNat 0) (maxOverall l2) = true)
    (hmu : qle (maxOverall l2) (Q.ofNat 1) = true) :
    pipelineAfter t (.ok content) (some f)
      = .ok ⟨! l2.isEmpty, maxOverall l2, dfltSummary, dfltSummaryEn, ⟨l2⟩⟩ := by
  have hlu : jLookup [(cs "applied_agents", JValue.jarr entries)] (cs "applied_agents")
      = some (.jarr entries) := by rfl
  have hs1 : jLookup [(cs "applied_agents", JValue.jarr entries)] (cs "system_summary")
      = none := by rfl
  have hs2 : jLookup [(cs "applied_agents", JValue.jarr entries)] (cs "system_summary_en")
      = none := by rfl
  have hpvr : parseValidationResponse content
      = .ok (.jobj [(cs "applied_agents", .jarr entries)]) := by
    unfold parseValidationResponse validateParsed
    simp only [Bind.bind, Except.bind, hparse, objFields, hlu, entriesOf,
      checkEntries_of_valid hval]
    rfl
  unfold pipelineAfter
  simp only [Bind.bind, Except.bind, hpvr, objFields, jLookupD, hlu, Option.getD,
    entriesOf, buildApplied_of_valid hval, hf, pyStrGetD, hs1, hs2]
  unfold mkRuleValidation
  dsimp only []
  rw [if_pos (by rw [hml, hmu]; rfl : (qle (Q.ofNat 0) (maxOverall l2)
    && qle (maxOverall l2) (Q.ofNat 1)) = true)]

/-- C8: when an override filter is supplied, it is invoked with the full
threshold-filtered scored list, and its return value replaces that list
before `canBeApplied` and `maxCompatibilityScore` are computed: the outcome
carries exactly the filter result, with `canBeApplied` and the maximum
recomputed from it. In particular a filter returning the empty list gives
`canBeApplied = false` and a zero maximum even when the scored list it was
handed was non-empty. -/
theorem c8_override_filter
    (t : Q) (entries : List JValue) (content rt : List Char)
    (ps : List (List Char × List Char)) (rules : Option (List CachedRuleCtx))
    (llm : List Char → Except PyExc (List Char))
    (f : List AgentRuleInfo → Except PyExc (List AgentRuleInfo)) (l2 : List AgentRuleInfo)
    (hllm : llm (renderedDefault rt ps (existingRulesData rules)) = .ok content)
    (hparse : safe_json_parse content = .ok (.jobj [(cs "applied_agents", .jarr entries)]))
    (hval : ∀ e ∈ entries, validEntry e = true)
    (hf : f (scoredOf t entries) = .ok l2)
    (hml : qle (Q.ofNat 0) (maxOverall l2) = true)
    (hmu : qle (maxOverall l2) (Q.ofNat 1) = true) :
    validate_rule t rt ps rules llm (some f)
      = .ok ⟨! l2.isEmpty, maxOverall l2, dfltSummary, dfltSummaryEn, ⟨l2⟩⟩
    ∧ (l2 = [] → (! l2.isEmpty) = false ∧ (maxOverall l2).toRat = 0) := by
  constructor
  · rw [validate_rule_run, hllm]
    unfold runPipeline
    rw [pipelineAfter_valid_cb t entries content f l2 hparse hval hf hml hmu]
  · intro h
    subst h
    refine ⟨rfl, ?_⟩
    show (Q.ofNat 0).toRat = 0
    rw [Q.toRat_ofNat]
    norm_num

/-- Witness for C8: the two-entry input of C3 (scored list non-empty — its
first agent passes the 0.7 threshold) with a filter that discards
everything; the outcome has `canBeApplied = false` and maximum 0. -/
theorem c8_witness :
    (scoredOf ⟨7, 10⟩ entriesC3).isEmpty = false
    ∧ ((fun _ => Except.ok []) (scoredOf ⟨7, 10⟩ entriesC3)
        = Except.ok (ε := PyExc) (List.nil (α := AgentRuleInfo)))
    ∧ validate_rule ⟨7, 10⟩ (cs "R") [(cs "A", cs "P")] none
        (fun _ => .ok respC3) (some (fun _ => .ok []))
      = .ok ⟨false, Q.ofNat 0, dfltSummary, dfltSummaryEn, ⟨[]⟩⟩ :=
  have hmain := c8_override_filter ⟨7, 10⟩ entriesC3 respC3 (cs "R") [(cs "A", cs "P")] none
    (fun _ => .ok respC3) (fun _ => .ok []) [] rfl (by rfl)
    (by
      intro e he
      simp only [entriesC3, List.mem_cons, List.not_mem_nil, or_false] at he
      rcases he with rfl | rfl <;> rfl)
    rfl (by decide) (by decide)
  ⟨by rfl, rfl, hmain.1⟩


/-- C10: the range validation `isinstance(score, (int, float)) and
0.0 <= score <= 1.0` accepts Python booleans (a `bool` is an `int`), so an
entry whose sub-score fields hold `true` or `false` passes
`_parse_validation_response` without an `InvalidScoreError`, and in the mean
the boolean contributes 1 or 0. -/
theorem c10_bool_scores
    (fs : List (List Char × JValue)) (s1 s2 s3 : JValue)
    (hp_an : (jLookup fs (cs "agent_name")).isSome = true)
    (hp_rta : (jLookup fs (cs "rule_to_apply")).isSome = true)
    (h1 : jLookup fs (cs "role_consistency_score") = some s1)
    (h2 : jLookup fs (cs "authority_expansion_score") = some s2)
    (h3 : jLookup fs (cs "instruction_conflicts_score") = some s3)
    (hs1 : scoreOk s1 = true) (hs2 : scoreOk s2 = true) (hs3 : scoreOk s3 = true) :
    checkEntry (.jobj fs) = .ok ()
    ∧ overallOf fs = qdivN (qadd (qadd (pyNumVal s1) (pyNumVal s2)) (pyNumVal s3)) three
    ∧ (∀ b, scoreOk (.jbool b) = true)
    ∧ pyNumVal (.jbool true) = Q.ofNat 1
    ∧ pyNumVal (.jbool false) = Q.ofNat 0 := by
  have hd1 : jLookupD fs (cs "role_consistency_score") .jnull = s1 := by
    simp [jLookupD, h1]
  have hd2 : jLookupD fs (cs "authority_expansion_score") .jnull = s2 := by
    simp [jLookupD, h2]
  have hd3 : jLookupD fs (cs "instruction_conflicts_score") .jnull = s3 := by
    simp [jLookupD, h3]
  refine ⟨?_, ?_, ?_, rfl, rfl⟩
  · have hfind1 : requiredFields.find? (fun f => (jLookup fs f).isNone) = none := by
      rw [List.find?_eq_none]
      intro f hf
      simp only [requiredFields, List.mem_cons, List.not_mem_nil, or_false] at hf
      rcases hf with rfl | rfl | rfl | rfl | rfl
      · simpa using Option.isSome_iff_ne_none.mp hp_an
      · simp [h1]
      · simp [h2]
      · simp [h3]
      · simpa using Option.isSome_iff_ne_none.mp hp_rta
    have hfind2 : scoreFields.find? (fun f => ! scoreOk (jLookupD fs f .jnull)) = none := by
      rw [List.find?_eq_none]
      intro f hf
      simp only [scoreFields, List.mem_cons, List.not_mem_nil, or_false] at hf
      rcases hf with rfl | rfl | rfl
      · simp [hd1, hs1]
      · simp [hd2, hs2]
      · simp [hd3, hs3]
    unfold checkEntry
    dsimp only []
    rw [hfind1, hfind2]
  · unfold overallOf
    rw [hd1, hd2, hd3]
  · intro b
    cases b <;> rfl

/-- Witness for C10: an entry scored `true`, `1`, `false` passes the checks
and its mean sees the booleans as 1 and 0. -/
theorem c10_witness :
    scoreOk (.jbool true) = true
    ∧ scoreOk (.jbool false) = true
    ∧ checkEntry entryC10 = .ok ()
    ∧ overallOf (objFields entryC10)
        = qdivN (qadd (qadd (pyNumVal (.jbool true)) (pyNumVal (.jnum ⟨1, 1⟩)))
            (pyNumVal (.jbool false))) three :=
  have hmain := c10_bool_scores (objFields entryC10) (.jbool true) (.jnum ⟨1, 1⟩)
    (.jbool false) (by rfl) (by rfl) (by rfl) (by rfl) (by rfl) (by rfl) (by rfl) (by rfl)
  ⟨by rfl, by rfl, hmain.1, hmain.2.1⟩


theorem checkEntries_append_ok {pre l : List JValue}
    (hpre : ∀ x ∈ pre, checkEntry x = .ok ()) :
    checkEntries (pre ++ l) = checkEntries l := by
  induction pre with
  | nil => rfl
  | cons x rest ih =>
    rw [List.cons_append]
    rw [show checkEntries (x :: (rest ++ l))
      = checkEntry x >>= (fun _ => checkEntries (rest ++ l)) from rfl]
    rw [hpre x (List.mem_cons_self _ _)]
    exact ih (fun y hy => hpre y (List.mem_cons_of_mem _ hy))

theorem checkEntry_obj_missing {fs : List (List Char × JValue)} {f : List Char}
    (h : requiredFields.find? (fun fl => (jLookup fs fl).isNone) = some f) :
    checkEntry (.jobj fs) = .error (.missingField f) := by
  unfold checkEntry
  dsimp only []
  rw [h]

theorem checkEntry_obj_invalid {fs : List (List Char × JValue)} {f : List Char}
    (hm : requiredFields.find? (fun fl => (jLookup fs fl).isNone) = none)
    (h : scoreFields.find? (fun fl => ! scoreOk (jLookupD fs fl .jnull)) = some f) :
    checkEntry (.jobj fs) = .error (.invalidScore f) := by
  unfold checkEntry
  dsimp only []
  rw [hm, h]

theorem checkEntry_obj_result (fs : List (List Char × JValue)) :
    checkEntry (.jobj fs)
      = (match requiredFields.find? (fun fl => (jLookup fs fl).isNone) with
        | some f => .error (.missingField f)
        | none =>
          match scoreFields.find? (fun fl => ! scoreOk (jLookupD fs fl .jnull)) with
          | some f => .error (.invalidScore f)
          | none => .ok ()) := by
  unfold checkEntry
  rfl

theorem checkEntries_missing_iff (entries : List JValue)
    (hobj : ∀ e ∈ entries, ∃ fs, e = .jobj fs) (f : List Char) :
    checkEntries entries = .error (.missingField f) ↔
      ∃ pre fs post, entries = pre ++ (JValue.jobj fs) :: post
        ∧ (∀ x ∈ pre, checkEntry x = .ok ())
        ∧ requiredFields.find? (fun fl => (jLookup fs fl).isNone) = some f := by
  constructor
  · intro h
    induction entries with
    | nil => cases h
    | cons e rest ih =>
      obtain ⟨fs, rfl⟩ := hobj e (List.mem_cons_self _ _)
      rw [checkEntries] at h
      cases hce : checkEntry (.jobj fs) with
      | error x =>
        simp only [Bind.bind, Except.bind, hce] at h
        cases h
        rw [checkEntry_obj_result] at hce
        cases hfind : requiredFields.find? (fun fl => (jLookup fs fl).isNone) with
        | some g =>
          rw [hfind] at hce
          cases hce
          exact ⟨[], fs, rest, rfl, by simp, hfind⟩
        | none =>
          rw [hfind] at hce
          cases hfind2 : scoreFields.find? (fun fl => ! scoreOk (jLookupD fs fl .jnull)) with
          | some g =>
            rw [hfind2] at hce
            cases hce
          | none =>
            rw [hfind2] at hce
            cases hce
      | ok u =>
        simp only [Bind.bind, Except.bind, hce] at h
        obtain ⟨pre, fs2, post, heq, hpre, hfind⟩ :=
          ih (fun x hx => hobj x (List.mem_cons_of_mem _ hx)) h
        refine ⟨(JValue.jobj fs) :: pre, fs2, post, by rw [heq, List.cons_append], ?_, hfind⟩
        intro x hx
        rcases List.mem_cons.mp hx with rfl | hx2
        · cases u
          exact hce
        · exact hpre x hx2
  · rintro ⟨pre, fs, post, rfl, hpre, hfind⟩
    rw [checkEntries_append_ok hpre]
    rw [checkEntries]
    simp only [Bind.bind, Except.bind, checkEntry_obj_missing hfind]

theorem checkEntries_invalid_iff (entries : List JValue)
    (hobj : ∀ e ∈ entries, ∃ fs, e = .jobj fs) (f : List Char) :
    checkEntries entries = .error (.invalidScore f) ↔
      ∃ pre fs post, entries = pre ++ (JValue.jobj fs) :: post
        ∧ (∀ x ∈ pre, checkEntry x = .ok ())
        ∧ requiredFields.find? (fun fl => (jLookup fs fl).isNone) = none
        ∧ scoreFields.find? (fun fl => ! scoreOk (jLookupD fs fl .jnull)) = some f := by
  constructor
  · intro h
    induction entries with
    | nil => cases h
    | cons e rest ih =>
      obtain ⟨fs, rfl⟩ := hobj e (List.mem_cons_self _ _)
      rw [checkEntries] at h
      cases hce : checkEntry (.jobj fs) with
      | error x =>
        simp only [Bind.bind, Except.bind, hce] at h
        cases h
        rw [checkEntry_obj_result] at hce
        cases hfind : requiredFields.find? (fun fl => (jLookup fs fl).isNone) with
        | some g =>
          rw [hfind] at hce
          cases hce
        | none =>
          rw [hfind] at hce
          cases hfind2 : scoreFields.find? (fun fl => ! scoreOk (jLookupD fs fl .jnull)) with
          | some g =>
            rw [hfind2] at hce
            cases hce
            exact ⟨[], fs, rest, rfl, by simp, hfind, hfind2⟩
          | none =>
            rw [hfind2] at hce
            cases hce
      | ok u =>
        simp only [Bind.bind, Except.bind, hce] at h
        obtain ⟨pre, fs2, post, heq, hpre, hfind, hfind2⟩ :=
          ih (fun x hx => hobj x (List.mem_cons_of_mem _ hx)) h
        refine ⟨(JValue.jobj fs) :: pre, fs2, post, by rw [heq, List.cons_append], ?_, hfind, hfind2⟩
        intro x hx
        rcases List.mem_cons.mp hx with rfl | hx2
        · cases u
          exact hce
        · exact hpre x hx2
  · rintro ⟨pre, fs, post, rfl, hpre, hfind, hfind2⟩
    rw [checkEntries_append_ok hpre]
    rw [checkEntries]
    simp only [Bind.bind, Except.bind, checkEntry_obj_invalid hfind hfind2]


theorem parseValidationResponse_err_iff (entries : List JValue) (content : List Char)
    (hparse : safe_json_parse content = .ok (.jobj [(cs "applied_agents", .jarr entries)]))
    (err : PyExc) :
    parseValidationResponse content = .error err ↔ checkEntries entries = .error err := by
  have hlu : jLookup [(cs "applied_agents", JValue.jarr entries)] (cs "applied_agents")
      = some (.jarr entries) := by rfl
  unfold parseValidationResponse validateParsed
  simp only [Bind.bind, Except.bind, hparse, objFields, hlu, entriesOf]
  cases hc : checkEntries entries with
  | error x =>
    simp only [hc]
    constructor
    · intro h
      cases h
      rfl
    · intro h
      cases h
      rfl
  | ok u =>
    cases u
    simp only [hc]
    constructor
    · intro h
      cases h
    · intro h
      cases h

/-- C7: on a response whose `applied_agents` is a list of objects, the
validation of `_parse_validation_response` fails with a `MissingFieldError`
naming `f` exactly when some entry — with every earlier entry passing both
checks — has `f` as the first of the five required fields that is absent,
and fails with an `InvalidScoreError` naming `f` exactly when some such
entry has all required fields but `f` is the first sub-score field whose
value is not a number in `[0.0, 1.0]` (booleans counting as numbers, see
C10). No threshold appears anywhere: the checks run on every entry,
including entries whose overall score would fall below the threshold. -/
theorem c7_entry_validation_errors
    (entries : List JValue) (content : List Char)
    (hobj : ∀ e ∈ entries, ∃ fs, e = .jobj fs)
    (hparse : safe_json_parse content = .ok (.jobj [(cs "applied_agents", .jarr entries)])) :
    (∀ f, parseValidationResponse content = .error (.missingField f) ↔
      ∃ pre fs post, entries = pre ++ (JValue.jobj fs) :: post
        ∧ (∀ x ∈ pre, checkEntry x = .ok ())
        ∧ requiredFields.find? (fun fl => (jLookup fs fl).isNone) = some f)
    ∧ (∀ f, parseValidationResponse content = .error (.invalidScore f) ↔
      ∃ pre fs post, entries = pre ++ (JValue.jobj fs) :: post
        ∧ (∀ x ∈ pre, checkEntry x = .ok ())
        ∧ requiredFields.find? (fun fl => (jLookup fs fl).isNone) = none
        ∧ scoreFields.find? (fun fl => ! scoreOk (jLookupD fs fl .jnull)) = some f) := by
  constructor
  · intro f
    rw [parseValidationResponse_err_iff entries content hparse]
    exact checkEntries_missing_iff entries hobj f
  · intro f
    rw [parseValidationResponse_err_iff entries content hparse]
    exact checkEntries_invalid_iff entries hobj f


/-- Witness for C7: a first well-formed entry followed by one whose
`role_consistency_score` is 1.5; validation reports `InvalidScoreError` on
exactly that field, after checking the first entry. -/
theorem c7_witness :
    (∀ e ∈ [entryC3A, entryC7bad], ∃ fs, e = .jobj fs)
    ∧ safe_json_parse respC7
        = .ok (.jobj [(cs "applied_agents", .jarr [entryC3A, entryC7bad])])
    ∧ parseValidationResponse respC7
        = .error (.invalidScore (cs "role_consistency_score"))
    ∧ (∃ pre fs post, [entryC3A, entryC7bad] = pre ++ (JValue.jobj fs) :: post
        ∧ (∀ x ∈ pre, checkEntry x = .ok ())
        ∧ requiredFields.find? (fun fl => (jLookup fs fl).isNone) = none
        ∧ scoreFields.find? (fun fl => ! scoreOk (jLookupD fs fl .jnull))
            = some (cs "role_consistency_score")) :=
  have hobj : ∀ e ∈ [entryC3A, entryC7bad], ∃ fs, e = .jobj fs := by
    intro e he
    simp only [List.mem_cons, List.not_mem_nil, or_false] at he
    rcases he with rfl | rfl
    · exact ⟨_, rfl⟩
    · exact ⟨_, rfl⟩
  have hmain := c7_entry_validation_errors [entryC3A, entryC7bad] respC7 hobj (by rfl)
  have herr : parseValidationResponse respC7
      = .error (.invalidScore (cs "role_consistency_score")) := by rfl
  ⟨hobj, by rfl, herr, (hmain.2 (cs "role_consistency_score")).mp herr⟩


/-- C6: `safe_json_parse` fails with the empty-input error exactly when the
whitespace-trimmed input is empty; fails with the malformed-payload error —
carrying the `json_str[:200]` snippet that the source interpolates into the
message — exactly when the selected payload is not syntactically valid
JSON; fails with the shape error exactly when the payload parses to a
non-object; and otherwise returns the parsed mapping unmodified. -/
theorem c6_parse_trichotomy (content : List Char) :
    (safe_json_parse content = .error .emptyInput ↔ pyStrip content = [])
    ∧ (∀ p, safe_json_parse content = .error (.malformedPayload p) ↔
        (pyStrip content ≠ [] ∧ jsonLoads (selectPayload (pyStrip content)) = none
          ∧ p = (selectPayload (pyStrip content)).take 200))
    ∧ (safe_json_parse content = .error .unexpectedShape ↔
        (pyStrip content ≠ [] ∧ ∃ v, jsonLoads (selectPayload (pyStrip content)) = some v
          ∧ ∀ fs, v ≠ .jobj fs))
    ∧ (∀ v, safe_json_parse content = .ok v ↔
        (pyStrip content ≠ [] ∧ jsonLoads (selectPayload (pyStrip content)) = some v
          ∧ ∃ fs, v = .jobj fs)) := by
  unfold safe_json_parse
  by_cases hemp : (pyStrip content).isEmpty = true
  · have hnil : pyStrip content = [] := by simpa [List.isEmpty_iff] using hemp
    rw [if_pos hemp]
    refine ⟨by simp [hnil], ?_, ?_, ?_⟩
    · intro p
      constructor
      · intro h
        cases h
      · rintro ⟨hne, _⟩
        exact absurd hnil hne
    · constructor
      · intro h
        cases h
      · rintro ⟨hne, _⟩
        exact absurd hnil hne
    · intro v
      constructor
      · intro h
        cases h
      · rintro ⟨hne, _⟩
        exact absurd hnil hne
  · have hne : pyStrip content ≠ [] := by simpa [List.isEmpty_iff] using hemp
    rw [if_neg hemp]
    dsimp only []
    cases hj : jsonLoads (selectPayload (pyStrip content)) with
    | none =>
      dsimp only []
      refine ⟨?_, ?_, ?_, ?_⟩
      · constructor
        · intro h
          cases h
        · intro h
          exact absurd h hne
      · intro p
        constructor
        · intro h
          cases h
          exact ⟨hne, rfl, rfl⟩
        · rintro ⟨_, _, rfl⟩
          rfl
      · constructor
        · intro h
          cases h
        · rintro ⟨_, v, hv, _⟩
          cases hv
      · intro v
        constructor
        · intro h
          cases h
        · rintro ⟨_, hv, _⟩
          cases hv
    | some v0 =>
      match v0 with
      | .jobj fs =>
        dsimp only []
        refine ⟨?_, ?_, ?_, ?_⟩
        · constructor
          · intro h
            cases h
          · intro h
            exact absurd h hne
        · intro p
          constructor
          · intro h
            cases h
          · rintro ⟨_, hv, _⟩
            cases hv
        · constructor
          · intro h
            cases h
          · rintro ⟨_, v, hv, hnobj⟩
            cases hv
            exact absurd rfl (hnobj fs)
        · intro v
          constructor
          · intro h
            cases h
            exact ⟨hne, rfl, fs, rfl⟩
          · rintro ⟨_, hv, fs2, rfl⟩
            cases hv
            rfl
      | .jnull | .jbool _ | .jnum _ | .jstr _ | .jarr _ =>
        dsimp only []
        refine ⟨?_, ?_, ?_, ?_⟩
        · constructor
          · intro h
            cases h
          · intro h
            exact absurd h hne
        · intro p
          constructor
          · intro h
            cases h
          · rintro ⟨_, hv, _⟩
            cases hv
        · constructor
          · intro _
            exact ⟨hne, _, rfl, by intro fs h; cases h⟩
          · intro _
            rfl
        · intro v
          constructor
          · intro h
            cases h
          · rintro ⟨_, hv, fs, rfl⟩
            cases hv

/-- Witness for C6: the scenario inputs — blank text, `"not json at all"`,
a JSON array, and a fenced object — land in the four branches. -/
theorem c6_witness :
    safe_json_parse (cs "  \n\t ") = .error .emptyInput
    ∧ safe_json_parse (cs "not json at all")
        = .error (.malformedPayload (cs "not json at all"))
    ∧ safe_json_parse (cs "[1]") = .error .unexpectedShape
    ∧ safe_json_parse (cs "```json\n\x7b\"applied_agents\": []\x7d\n```")
        = .ok (.jobj [(cs "applied_agents", .jarr [])]) :=
  ⟨((c6_parse_trichotomy (cs "  \n\t ")).1).mpr (by rfl),
   ((c6_parse_trichotomy (cs "not json at all")).2.1 (cs "not json at all")).mpr
     ⟨by simp [pyStrip, pySpace, cs], by rfl, by rfl⟩,
   ((c6_parse_trichotomy (cs "[1]")).2.2.1).mpr
     ⟨by simp [pyStrip, pySpace, cs], .jarr [.jnum ⟨1, 1⟩], by rfl, by intro fs h; cases h⟩,
   ((c6_parse_trichotomy (cs "```json\n\x7b\"applied_agents\": []\x7d\n```")).2.2.2
      (.jobj [(cs "applied_agents", .jarr [])])).mpr
     ⟨by simp [pyStrip, pySpace, cs], by rfl, _, rfl⟩⟩


theorem begins_ticks_of_noTick {u : List Char} (hu : noTick u = true) :
    begins tagGeneric (u ++ fenceClose) = false := by
  match u with
  | [] => rfl
  | d :: u2 =>
    have hd : ¬(d = '`') := by
      simp only [noTick, List.all_cons, Bool.and_eq_true] at hu
      simpa using hu.1
    show (('`' = d) && _) = false
    simp [Ne.symm hd]

theorem findSub_fence {u : List Char} (hu : noTick u = true) :
    findSub fenceClose (u ++ fenceClose) = some u.length := by
  induction u with
  | nil => rfl
  | cons d u2 ih =>
    have hd : ¬(d = '`') := by
      simp only [noTick, List.all_cons, Bool.and_eq_true] at hu
      simpa using hu.1
    have hu2 : noTick u2 = true := by
      simp only [noTick, List.all_cons, Bool.and_eq_true] at hu
      exact hu.2
    rw [List.cons_append]
    rw [show findSub fenceClose (d :: (u2 ++ fenceClose))
      = (if begins fenceClose (d :: (u2 ++ fenceClose)) then some 0
        else (findSub fenceClose (u2 ++ fenceClose)).map (· + 1)) from rfl]
    have hb : begins fenceClose (d :: (u2 ++ fenceClose)) = false := by
      by_cases hdn : d = '\n'
      · subst hdn
        show (('\n' = '\n') && begins tagGeneric (u2 ++ fenceClose)) = false
        rw [begins_ticks_of_noTick hu2]
        simp
      · show (('\n' = d) && _) = false
        simp [Ne.symm hdn]
    rw [hb]
    simp only [if_false, Bool.false_eq_true]
    rw [ih hu2]
    rfl

theorem lazyGroup_fence {u : List Char} (hu : noTick u = true) :
    lazyGroup (u ++ fenceClose) = some u := by
  unfold lazyGroup
  rw [findSub_fence hu]
  simp [List.take_left]

theorem pyStrip_wsDrop {w x : List Char} (hw : ∀ c ∈ w, pySpace c = true) :
    pyStrip (w ++ x) = pyStrip x := by
  unfold pyStrip
  congr 1
  rw [List.dropWhile_append]
  have : w.dropWhile pySpace = [] := List.dropWhile_eq_nil_iff.mpr hw
  simp [this]


theorem wsLen_get {s : List Char} {i : Nat} (h : i < wsLen s) :
    ∃ c, s.get? i = some c ∧ pySpace c = true := by
  induction s generalizing i with
  | nil => simp [wsLen, List.takeWhile] at h
  | cons d rest ih =>
    by_cases hd : pySpace d = true
    · match i with
      | 0 => exact ⟨d, rfl, hd⟩
      | i + 1 =>
        have hi : i < wsLen rest := by
          simp only [wsLen, List.takeWhile, hd] at h
          simpa using Nat.lt_of_succ_lt_succ h
        exact ih hi
    · simp only [wsLen, List.takeWhile] at h
      rw [Bool.not_eq_true] at hd
      rw [hd] at h
      simp at h

theorem tryWsSplit_isSome {body : List Char} (hb : noTick body = true) :
    ∀ n, (tryWsSplit ('\n' :: (body ++ fenceClose)) n).isSome = true := by
  intro n
  induction n with
  | zero =>
    have h0 : ('\n' :: (body ++ fenceClose)).get? 0 = some '\n' := rfl
    show (if ('\n' :: (body ++ fenceClose)).get? 0 = some '\n'
      then lazyGroup (('\n' :: (body ++ fenceClose)).drop 1) else none).isSome = true
    rw [if_pos h0]
    show (lazyGroup (body ++ fenceClose)).isSome = true
    rw [lazyGroup_fence hb]
    rfl
  | succ n ih =>
    rw [tryWsSplit]
    cases hi : (if ('\n' :: (body ++ fenceClose)).get? (n + 1) = some '\n'
      then lazyGroup (('\n' :: (body ++ fenceClose)).drop (n + 2)) else none) with
    | some c => rfl
    | none => exact ih

theorem tryWsSplit_sound {body : List Char} (hb : noTick body = true) :
    ∀ n, n ≤ wsLen ('\n' :: (body ++ fenceClose)) →
      ∀ c, tryWsSplit ('\n' :: (body ++ fenceClose)) n = some c →
        pyStrip c = pyStrip body := by
  intro n
  induction n with
  | zero =>
    intro _ c hc
    have h0 : ('\n' :: (body ++ fenceClose)).get? 0 = some '\n' := rfl
    rw [show tryWsSplit ('\n' :: (body ++ fenceClose)) 0
      = (if ('\n' :: (body ++ fenceClose)).get? 0 = some '\n'
        then lazyGroup (('\n' :: (body ++ fenceClose)).drop 1) else none) from rfl,
      if_pos h0] at hc
    rw [show (('\n' :: (body ++ fenceClose)).drop 1) = body ++ fenceClose from rfl,
      lazyGroup_fence hb] at hc
    cases hc
    rfl
  | succ n ih =>
    intro hn c hc
    rw [tryWsSplit] at hc
    cases hi : (if ('\n' :: (body ++ fenceClose)).get? (n + 1) = some '\n'
      then lazyGroup (('\n' :: (body ++ fenceClose)).drop (n + 2)) else none) with
    | none =>
      rw [hi] at hc
      exact ih (Nat.le_of_succ_le hn) c hc
    | some c2 =>
      rw [hi] at hc
      cases hc
      by_cases hg : ('\n' :: (body ++ fenceClose)).get? (n + 1) = some '\n'
      · rw [if_pos hg] at hi
        have hgb : (body ++ fenceClose).get? n = some '\n' := hg
        rcases Nat.lt_or_ge n body.length with hlt | hge
        · have hdrop : ('\n' :: (body ++ fenceClose)).drop (n + 2)
              = body.drop (n + 1) ++ fenceClose := by
            show ((body ++ fenceClose)).drop (n + 1) = body.drop (n + 1) ++ fenceClose
            exact List.drop_append_of_le_length (by omega)
          rw [hdrop] at hi
          have hbt2 : noTick (body.drop (n + 1)) = true := by
            simp only [noTick] at hb ⊢
            exact List.all_eq_true.mpr
              (fun x hx => List.all_eq_true.mp hb x (List.mem_of_mem_drop hx))
          rw [lazyGroup_fence hbt2] at hi
          cases hi
          have hbn : body.get? n = some '\n' := by
            rw [List.get?_append hlt] at hgb
            exact hgb
          have hwsp : ∀ ch ∈ body.take (n + 1), pySpace ch = true := by
            intro ch hch
            obtain ⟨i, hi2⟩ := List.mem_iff_get?.mp hch
            have hilt : i < n + 1 := by
              by_contra hcon
              push_neg at hcon
              rw [List.get?_eq_none.mpr (by simp; omega)] at hi2
              exact Option.noConfusion hi2
            rw [List.get?_take hilt] at hi2
            rcases Nat.lt_or_ge i n with hin | hin
            · have hiw : i + 1 < wsLen ('\n' :: (body ++ fenceClose)) := by omega
              obtain ⟨c3, hc3, hwc3⟩ := wsLen_get hiw
              have hib : i < body.length := by
                by_contra hcon
                push_neg at hcon
                rw [List.get?_eq_none.mpr hcon] at hi2
                exact Option.noConfusion hi2
              have : ('\n' :: (body ++ fenceClose)).get? (i + 1) = some ch := by
                show (body ++ fenceClose).get? i = some ch
                rw [List.get?_append hib]
                exact hi2
              rw [this] at hc3
              cases hc3
              exact hwc3
            · have hieq : i = n := by omega
              rw [hieq, hbn] at hi2
              cases hi2
              rfl
          have h2 : pyStrip (body.take (n + 1) ++ body.drop (n + 1))
              = pyStrip (body.drop (n + 1)) :=
            @pyStrip_wsDrop (body.take (n + 1)) (body.drop (n + 1)) hwsp
          rw [List.take_append_drop] at h2
          exact h2.symm
        · have hfc : fenceClose.get? (n - body.length) = some '\n' := by
            rw [List.get?_append_right hge] at hgb
            exact hgb
          have hlen : fenceClose.length = 4 := rfl
          have h4 : n - body.length < 4 := by
            by_contra hge4
            push_neg at hge4
            rw [List.get?_eq_none.mpr (by rw [hlen]; omega)] at hfc
            exact Option.noConfusion hfc
          have key : ∀ m, m < 4 → fenceClose.get? m = some '\n' → m = 0 := by decide
          have hm0 : n - body.length = 0 := key _ h4 hfc
          have hneq : n = body.length := by omega
          have hdrop : ('\n' :: (body ++ fenceClose)).drop (n + 2) = ['`', '`', '`'] := by
            show (body ++ fenceClose).drop (n + 1) = ['`', '`', '`']
            rw [hneq, show body.length + 1 = body.length + 1 from rfl]
            rw [List.drop_append_eq_append_drop]
            simp only [List.drop_eq_nil_of_le (by omega : body.length ≤ body.length + 1)]
            rw [Nat.add_sub_cancel_left]
            rfl
          rw [hdrop] at hi
          rw [show lazyGroup ['`', '`', '`'] = none from rfl] at hi
          exact Option.noConfusion hi
      · rw [if_neg hg] at hi
        exact Option.noConfusion hi


theorem fence_extract {body : List Char} (hb : noTick body = true) :
    ∃ g, tryWsSplit ('\n' :: (body ++ fenceClose))
        (wsLen ('\n' :: (body ++ fenceClose))) = some g ∧
      pyStrip g = pyStrip body := by
  cases hg : tryWsSplit ('\n' :: (body ++ fenceClose))
      (wsLen ('\n' :: (body ++ fenceClose))) with
  | none =>
    have hs := tryWsSplit_isSome hb (wsLen ('\n' :: (body ++ fenceClose)))
    rw [hg] at hs
    exact absurd hs (by simp)
  | some g =>
    exact ⟨g, rfl, tryWsSplit_sound hb _ Nat.le.refl g hg⟩

theorem reSearch_step {f : List Char → Option (List Char)} {c : Char}
    {rest : List Char} (h : f (c :: rest) = none) :
    reSearch f (c :: rest) = reSearch f rest := by
  show (match f (c :: rest) with
    | some g => some g
    | none => reSearch f rest) = reSearch f rest
  rw [h]

theorem reSearch_head {f : List Char → Option (List Char)} {c : Char}
    {rest g : List Char} (h : f (c :: rest) = some g) :
    reSearch f (c :: rest) = some g := by
  show (match f (c :: rest) with
    | some g2 => some g2
    | none => reSearch f rest) = some g
  rw [h]

theorem begins_cons_false {p d : Char} {ps x : List Char} (h : ¬ p = d) :
    begins (p :: ps) (d :: x) = false := by
  show (decide (p = d) && begins ps x) = false
  rw [decide_eq_false h, Bool.false_and]

theorem matchJsonAt_tick_head {d : Char} {r : List Char} (hd : ¬ d = '`') :
    matchJsonAt (d :: r) = none := by
  have h1 : begins tagJson (d :: r) = false := begins_cons_false (fun h => hd h.symm)
  have h2 : begins tagJSON (d :: r) = false := begins_cons_false (fun h => hd h.symm)
  unfold matchJsonAt
  rw [h1, h2]
  rfl

theorem matchGenericAt_tick_head {d : Char} {r : List Char} (hd : ¬ d = '`') :
    matchGenericAt (d :: r) = none := by
  have h1 : begins tagGeneric (d :: r) = false := begins_cons_false (fun h => hd h.symm)
  unfold matchGenericAt
  rw [h1]
  rfl

theorem noJson_bt {u : List Char} (hu : noTick u = true) :
    reSearchJson (u ++ fenceClose) = none := by
  induction u with
  | nil => rfl
  | cons d u2 ih =>
    simp only [noTick, List.all_cons, Bool.and_eq_true, Bool.not_eq_true',
      decide_eq_false_iff_not] at hu
    have hm : matchJsonAt (d :: (u2 ++ fenceClose)) = none :=
      matchJsonAt_tick_head hu.1
    show reSearch matchJsonAt (d :: (u2 ++ fenceClose)) = none
    rw [reSearch_step hm]
    exact ih hu.2

theorem noFence_all {s : List Char} (hs : noTick s = true) :
    reSearchJson s = none ∧ reSearchGeneric s = none := by
  induction s with
  | nil => exact ⟨rfl, rfl⟩
  | cons d rest ih =>
    simp only [noTick, List.all_cons, Bool.and_eq_true, Bool.not_eq_true',
      decide_eq_false_iff_not] at hs
    obtain ⟨ihj, ihg⟩ := ih hs.2
    constructor
    · show reSearch matchJsonAt (d :: rest) = none
      rw [reSearch_step (matchJsonAt_tick_head hs.1)]
      exact ihj
    · show reSearch matchGenericAt (d :: rest) = none
      rw [reSearch_step (matchGenericAt_tick_head hs.1)]
      exact ihg


/-- C5 (counterexample to the letter-case part): the language tag of the
first regex is the literal alternation `json|JSON`, not a case-insensitive
match, so a fence tagged `Json` is selected by neither regex and the payload
falls through to the whole text, while the same content tagged `json` is
extracted. -/
theorem c5_counterexample :
    selectPayload (pyStrip (cs "```Json\nnull\n```")) = cs "```Json\nnull\n```"
    ∧ selectPayload (pyStrip (cs "```json\nnull\n```")) = cs "null"
    ∧ safe_json_parse (cs "```Json\nnull\n```")
        = .error (.malformedPayload (cs "```Json\nnull\n```")) := by
  exact ⟨rfl, rfl, rfl⟩

/-- C5 (amended: the tag is exactly `json` or exactly `JSON`, not any letter
case): `selectPayload` takes the json-tagged fence content first, else the
generic fence content, else the whole stripped text; a fence whose tag is
lowercase `json` or uppercase `JSON` is found by the first regex with its
content (up to stripping), a tag-free fence is found by the generic regex
only, a `Json`-tagged fence is not found by the json regex, and text without
backticks contains no fence at all. -/
theorem c5_payload_precedence :
    (∀ s g, reSearchJson s = some g → selectPayload s = pyStrip g)
    ∧ (∀ s g, reSearchJson s = none → reSearchGeneric s = some g →
        selectPayload s = pyStrip g)
    ∧ (∀ s, reSearchJson s = none → reSearchGeneric s = none →
        selectPayload s = s)
    ∧ (∀ body, noTick body = true →
        (∃ g, reSearchJson (cs "```json\n" ++ (body ++ fenceClose)) = some g
          ∧ pyStrip g = pyStrip body)
        ∧ (∃ g, reSearchJson (cs "```JSON\n" ++ (body ++ fenceClose)) = some g
          ∧ pyStrip g = pyStrip body)
        ∧ (reSearchJson (cs "```\n" ++ (body ++ fenceClose)) = none
          ∧ ∃ g, reSearchGeneric (cs "```\n" ++ (body ++ fenceClose)) = some g
              ∧ pyStrip g = pyStrip body)
        ∧ reSearchJson (cs "```Json\n" ++ (body ++ fenceClose)) = none)
    ∧ (∀ s, noTick s = true → reSearchJson s = none ∧ reSearchGeneric s = none) := by
  refine ⟨?_, ?_, ?_, ?_, fun s hs => noFence_all hs⟩
  · intro s g h
    unfold selectPayload
    rw [h]
  · intro s g h1 h2
    unfold selectPayload
    rw [h1, h2]
  · intro s h1 h2
    unfold selectPayload
    rw [h1, h2]
  · intro body hb
    obtain ⟨g, hg, hst⟩ := fence_extract hb
    refine ⟨⟨g, ?_, hst⟩, ⟨g, ?_, hst⟩, ⟨?_, ⟨g, ?_, hst⟩⟩, ?_⟩
    · show reSearch matchJsonAt ('`' :: (cs "``json\n" ++ (body ++ fenceClose))) = some g
      have hm : matchJsonAt ('`' :: (cs "``json\n" ++ (body ++ fenceClose)))
          = tryWsSplit ('\n' :: (body ++ fenceClose))
            (wsLen ('\n' :: (body ++ fenceClose))) := rfl
      exact reSearch_head (hm.trans hg)
    · show reSearch matchJsonAt ('`' :: (cs "``JSON\n" ++ (body ++ fenceClose))) = some g
      have hm : matchJsonAt ('`' :: (cs "``JSON\n" ++ (body ++ fenceClose)))
          = tryWsSplit ('\n' :: (body ++ fenceClose))
            (wsLen ('\n' :: (body ++ fenceClose))) := rfl
      exact reSearch_head (hm.trans hg)
    · have h0 : matchJsonAt ('`' :: '`' :: '`' :: '\n' :: (body ++ fenceClose)) = none := rfl
      have h1 : matchJsonAt ('`' :: '`' :: '\n' :: (body ++ fenceClose)) = none := rfl
      have h2 : matchJsonAt ('`' :: '\n' :: (body ++ fenceClose)) = none := rfl
      have hnl : noTick ('\n' :: body) = true := hb
      show reSearch matchJsonAt ('`' :: '`' :: '`' :: '\n' :: (body ++ fenceClose)) = none
      rw [reSearch_step h0, reSearch_step h1, reSearch_step h2]
      exact noJson_bt hnl
    · have hm : matchGenericAt ('`' :: '`' :: '`' :: '\n' :: (body ++ fenceClose))
          = tryWsSplit ('\n' :: (body ++ fenceClose))
            (wsLen ('\n' :: (body ++ fenceClose))) := rfl
      show reSearch matchGenericAt ('`' :: '`' :: '`' :: '\n' :: (body ++ fenceClose)) = some g
      exact reSearch_head (hm.trans hg)
    · have h0 : matchJsonAt
          ('`' :: '`' :: '`' :: 'J' :: 's' :: 'o' :: 'n' :: '\n' :: (body ++ fenceClose))
          = none := rfl
      have h1 : matchJsonAt
          ('`' :: '`' :: 'J' :: 's' :: 'o' :: 'n' :: '\n' :: (body ++ fenceClose))
          = none := rfl
      have h2 : matchJsonAt
          ('`' :: 'J' :: 's' :: 'o' :: 'n' :: '\n' :: (body ++ fenceClose))
          = none := rfl
      have hju : noTick ('J' :: 's' :: 'o' :: 'n' :: '\n' :: body) = true := hb
      show reSearch matchJsonAt
        ('`' :: '`' :: '`' :: 'J' :: 's' :: 'o' :: 'n' :: '\n' :: (body ++ fenceClose)) = none
      rw [reSearch_step h0, reSearch_step h1, reSearch_step h2]
      exact noJson_bt hju

/-- Closed instance of C5: the payload of a lowercase-tagged fence around
`null` is the stripped fence content, by the precedence theorem at the
concrete body `null`. -/
theorem c5_witness :
    selectPayload (cs "```json\n" ++ (cs "null" ++ fenceClose)) = pyStrip (cs "null") := by
  obtain ⟨g, hg, hst⟩ := (c5_payload_precedence.2.2.2.1 (cs "null") (by decide)).1
  rw [c5_payload_precedence.1 _ g hg, hst]


theorem agentsSectionFrom_eq : ∀ (ps : List (List Char × List Char)) (i : Nat),
    agentsSectionFrom i ps
      = ((List.enumFrom i ps).map (fun q =>
          cs "\n### Agent " ++ (toString q.1).toList ++ cs ": " ++ q.2.1
            ++ cs "\n```" ++ q.2.2 ++ cs "```\n")).flatten := by
  intro ps
  induction ps with
  | nil => intro i; rfl
  | cons x rest ih =>
    intro i
    obtain ⟨name, p⟩ := x
    show cs "\n### Agent " ++ (toString i).toList ++ cs ": " ++ name
        ++ cs "\n```" ++ p ++ cs "```\n" ++ agentsSectionFrom (i + 1) rest = _
    rw [ih (i + 1)]
    rfl

/-- C9: rendering the default template always succeeds and yields the four
literal chunks around the rule text (verbatim), the agents section and the
existing-rules section; the agents section enumerates the agent prompts in
caller order with headers numbered from 1 and the role text verbatim inside
a fenced block; the existing-rules section is empty exactly when the rules
list is absent or empty, and otherwise is the section header followed by one
entry per rule (`ruleEntryText`: identifier with fallback `unknown`, the
applied agent names when metadata is present, and the rule text). -/
theorem c9_render_structure (rt : List Char) (ps : List (List Char × List Char))
    (rules : Option (List ExistingRuleData)) :
    render defaultTemplate rt ps rules
      = some (tplT0 ++ (agentsSection ps ++ (tplT1 ++ (existingRulesSection rules
          ++ (tplT2 ++ (rt ++ collapse tplT3))))))
    ∧ agentsSection ps
      = ((List.enumFrom 1 ps).map (fun q =>
          cs "\n### Agent " ++ (toString q.1).toList ++ cs ": " ++ q.2.1
            ++ cs "\n```" ++ q.2.2 ++ cs "```\n")).flatten
    ∧ (existingRulesSection rules = [] ↔ rules = none ∨ rules = some [])
    ∧ (∀ l, rules = some l → l ≠ [] →
        existingRulesSection rules
          = existingRulesHeader ++ (l.map ruleEntryText).flatten) := by
  refine ⟨renderDefault_eq rt ps rules, agentsSectionFrom_eq ps 1, ?_, ?_⟩
  · constructor
    · intro h
      cases rules with
      | none => exact Or.inl rfl
      | some l =>
        cases l with
        | nil => exact Or.inr rfl
        | cons r rs =>
          exfalso
          rw [show existingRulesSection (some (r :: rs))
            = existingRulesHeader ++ ((r :: rs).map ruleEntryText).flatten from rfl] at h
          have : existingRulesHeader ++ ((r :: rs).map ruleEntryText).flatten ≠ [] := by
            simp [existingRulesHeader, cs]
          exact this h
    · rintro (rfl | rfl) <;> rfl
  · intro l hl hne
    subst hl
    cases l with
    | nil => exact absurd rfl hne
    | cons r rs => rfl

/-- Closed instance of C9 at one agent and one existing rule: the header
numbering, the fenced role text, and the existing-rules entry evaluate as
stated. -/
theorem c9_witness :
    agentsSection [(cs "A", cs "You are helpful")]
      = cs "\n### Agent " ++ (toString 1).toList ++ cs ": " ++ cs "A"
        ++ cs "\n```" ++ cs "You are helpful" ++ cs "```\n"
    ∧ existingRulesSection
        (some [⟨some (cs "r1"), some (cs "Be nice"), some [cs "A", cs "B"]⟩])
      = existingRulesHeader
        ++ (([⟨some (cs "r1"), some (cs "Be nice"), some [cs "A", cs "B"]⟩]
            : List ExistingRuleData).map ruleEntryText).flatten := by
  constructor
  · rw [(c9_render_structure (cs "x") [(cs "A", cs "You are helpful")] none).2.1]
    rfl
  · exact (c9_render_structure (cs "x") []
      (some [⟨some (cs "r1"), some (cs "Be nice"), some [cs "A", cs "B"]⟩])).2.2.2
      _ rfl (by simp)
end RMS
